import Mathlib

/-!
Verification of the merge-and-overwrite upsert implemented by
`update_and_load_to_aurora` in `src/write_upsert_aws_in_pyspark.py`.

The source builds a full outer join of `new_data` (alias `nd`) and
`current_data` (alias `cd`) on `primary_keys`, splits the joined rows into
three buckets with Spark SQL filters (whose comparisons follow SQL
three-valued logic: a comparison with NULL yields NULL, and a filter keeps
a row only when its condition evaluates to TRUE), projects each bucket,
unions the buckets by column name, and overwrite-writes the result over
a JDBC connection.

The embedding below models:
  * cells as `Option Cell` (NULL is `none`);
  * rows as association lists from column name to cell;
  * dataframes as a column list (schema) plus a row list;
  * the full outer join with SQL equality on the key columns
    (NULL key values never match);
  * the two hard-coded compared columns `value_col` / `another_col` with
    Kleene three-valued inequality, mirroring lines 44-66 of the source;
  * Spark's eager analysis errors: referencing a column absent from a
    dataframe raises an `AnalysisException` before any write (modelled as
    `UpsertErr.schemaMismatch`), and an empty `primary_keys` list makes
    `primary_keys[0]` raise `IndexError` before any write (the failure
    class the design calls `AmbiguousPrimaryKey`, modelled as
    `UpsertErr.ambiguousPrimaryKey`).
-/

namespace Upsert

/-- A non-NULL tabular cell value: the demonstration data uses strings and
integers. -/
inductive Cell where
  | str : String → Cell
  | int : Int → Cell
deriving DecidableEq, Repr

/-- A possibly-NULL cell: `none` models SQL NULL. -/
abbrev Val := Option Cell

/-- A row: an association list from column name to (possibly NULL) value,
mirroring the spec's "ordered mapping from column name to value". -/
abbrev Row := List (String × Val)

/-- Value of column `x` in a row; the first binding wins.  A column with no
binding reads as NULL, as an absent attribute does after an outer join. -/
def rowGet : Row → String → Val
  | [], _ => none
  | (c, v) :: rest, x => if c = x then v else rowGet rest x

/-- A dataframe: a schema (ordered column names) and a list of rows. -/
structure DF where
  cols : List String
  rows : List Row
deriving Repr

/-- The key tuple of a row for the given primary-key columns. -/
def keyOf (pks : List String) (r : Row) : List Val :=
  pks.map (rowGet r)

/-- SQL join equality on the key columns: every key column is non-NULL on
both sides and equal.  NULL key values never match (SQL `=` semantics used
by the join `on=primary_keys`). -/
def keysMatch (pks : List String) (n c : Row) : Bool :=
  pks.all fun k =>
    match rowGet n k, rowGet c k with
    | some a, some b => decide (a = b)
    | _, _ => false

/-- SQL three-valued truth value. -/
inductive TV where
  | tt
  | ff
  | nn
deriving DecidableEq, Repr

/-- Three-valued inequality `a != b`: NULL on either side yields NULL. -/
def neqTV : Val → Val → TV
  | some a, some b => if a = b then TV.ff else TV.tt
  | _, _ => TV.nn

/-- Kleene disjunction. -/
def orTV : TV → TV → TV
  | TV.tt, _ => TV.tt
  | _, TV.tt => TV.tt
  | TV.ff, TV.ff => TV.ff
  | _, _ => TV.nn

/-- Kleene negation. -/
def notTV : TV → TV
  | TV.tt => TV.ff
  | TV.ff => TV.tt
  | TV.nn => TV.nn

/-- Read a column from one side of a joined row: the side that did not
match is entirely NULL. -/
def pairGet : Option Row → String → Val
  | some r, c => rowGet r c
  | none, _ => none

/-- A joined row: the `nd` (new) side and the `cd` (current) side; `none`
is the all-NULL side produced by the outer join for unmatched rows. -/
abbrev JRow := Option Row × Option Row

/-- The current-side rows matching a given new-side row on the keys. -/
def matchesOf (curRows : List Row) (pks : List String) (n : Row) : List Row :=
  curRows.filter fun c => keysMatch pks n c

/-- Left part of the full outer join: each new row paired with every
matching current row, or with the all-NULL side when nothing matches. -/
def joinLeft : List Row → List Row → List String → List JRow
  | [], _, _ => []
  | n :: ns, curRows, pks =>
    (match matchesOf curRows pks n with
     | [] => [((some n : Option Row), (none : Option Row))]
     | ms => ms.map fun c => ((some n : Option Row), (some c : Option Row)))
    ++ joinLeft ns curRows pks

/-- Full outer join of the new rows (left, alias `nd`) with the current
rows (right, alias `cd`) on the primary-key columns: line 34 of the
source. -/
def fullOuterJoin (newRows curRows : List Row) (pks : List String) : List JRow :=
  joinLeft newRows curRows pks
  ++ (curRows.filter fun c => !(newRows.any fun n => keysMatch pks n c)).map
      fun c => ((none : Option Row), (some c : Option Row))

/-- The two hard-coded compared non-key columns of the source. -/
def comparedCols : List String := ["value_col", "another_col"]

/-- The change condition of lines 48-49:
`(nd.value_col != cd.value_col) | (nd.another_col != cd.another_col)`,
under SQL three-valued logic. -/
def changedCond (p : JRow) : TV :=
  orTV (neqTV (pairGet p.1 "value_col") (pairGet p.2 "value_col"))
       (neqTV (pairGet p.1 "another_col") (pairGet p.2 "another_col"))

/-- Filter of `updated_rows` (lines 44-50): both key sides present and the
change condition evaluates to TRUE. -/
def updFilter (pk0 : String) (p : JRow) : Bool :=
  (pairGet p.1 pk0).isSome && (pairGet p.2 pk0).isSome
    && decide (changedCond p = TV.tt)

/-- Filter of `unchanged_rows` (lines 58-65): both key sides present and
the negated change condition evaluates to TRUE. -/
def unchFilter (pk0 : String) (p : JRow) : Bool :=
  (pairGet p.1 pk0).isSome && (pairGet p.2 pk0).isSome
    && decide (notTV (changedCond p) = TV.tt)

/-- Filter of `new_rows` (line 54): the current side's first key column is
NULL. -/
def newFilter (pk0 : String) (p : JRow) : Bool :=
  (pairGet p.2 pk0).isNone

/-- `select` of a list of columns, reading each through the given getter. -/
def selectVals (get : String → Val) (cols : List String) : Row :=
  cols.map fun c => (c, get c)

/-- The joined dataframe of line 34. -/
def joined_df (new_data current_data : DF) (pks : List String) : List JRow :=
  fullOuterJoin new_data.rows current_data.rows pks

/-- Column list of the `updated_rows` projection (line 51): the primary
keys, then the remaining columns of `new_data`. -/
def updCols (pks : List String) (newCols : List String) : List String :=
  pks ++ newCols.filter fun c => !(pks.contains c)

/-- `updated_rows` (lines 44-51): joined rows present on both sides with a
changed compared column, projected to `nd`'s values. -/
def updated_rows (new_data current_data : DF) (pks : List String) (pk0 : String) : List Row :=
  ((joined_df new_data current_data pks).filter (updFilter pk0)).map
    fun p => selectVals (pairGet p.1) (updCols pks new_data.cols)

/-- `new_rows` (lines 53-54): joined rows whose current side is absent,
projected as `nd.*`. -/
def new_rows (new_data current_data : DF) (pks : List String) (pk0 : String) : List Row :=
  ((joined_df new_data current_data pks).filter (newFilter pk0)).map
    fun p => selectVals (pairGet p.1) new_data.cols

/-- `unchanged_rows` (lines 58-66): joined rows present on both sides with
no changed compared column, projected as `cd.*`. -/
def unchanged_rows (new_data current_data : DF) (pks : List String) (pk0 : String) : List Row :=
  ((joined_df new_data current_data pks).filter (unchFilter pk0)).map
    fun p => selectVals (pairGet p.2) current_data.cols

/-- `unionByName` realignment: rebuild a row on the schema of the first
frame of the union, matching columns by name. -/
def alignTo (cols : List String) (r : Row) : Row :=
  selectVals (rowGet r) cols

/-- `final_df` (line 69): `new_rows.unionByName(updated_rows)
.unionByName(unchanged_rows)`; all rows are aligned by name to the first
frame's schema, `new_data.cols`. -/
def final_df (new_data current_data : DF) (pks : List String) (pk0 : String) : List Row :=
  new_rows new_data current_data pks pk0
  ++ (updated_rows new_data current_data pks pk0).map (alignTo new_data.cols)
  ++ (unchanged_rows new_data current_data pks pk0).map (alignTo new_data.cols)

/-- Failure classes of the operation, named after the spec's error
taxonomy.  `schemaMismatch` models the `AnalysisException` Spark raises
eagerly when a referenced column is absent or the union's column sets
differ; `ambiguousPrimaryKey` models the `IndexError` raised by
`primary_keys[0]` when the key list is empty. -/
inductive UpsertErr where
  | schemaMismatch
  | ambiguousPrimaryKey
deriving DecidableEq, Repr

/-- Do two column lists name the same set of columns (requirement of
`unionByName`)? -/
def sameColSet (a b : List String) : Bool :=
  (a.all fun c => b.contains c) && (b.all fun c => a.contains c)

/-- `update_and_load_to_aurora` (lines 5-82): computes the reconciled
dataset and performs the overwrite write.  On success the result is the
reconciled rows (the new destination table contents) together with the
printed confirmation line; on failure the error is raised before the
write and propagates to the caller (the source has no exception
handling).  The JDBC parameters only feed the write options. -/
def update_and_load_to_aurora (current_data new_data : DF)
    (primary_keys : List String)
    (aurora_jdbc_url aurora_table_name : String)
    (aurora_properties : List (String × String)) :
    Except UpsertErr (List Row × String) :=
  match primary_keys with
  | [] => Except.error UpsertErr.ambiguousPrimaryKey
  | pk0 :: _ =>
    if !(primary_keys.all fun k => new_data.cols.contains k && current_data.cols.contains k) then
      Except.error UpsertErr.schemaMismatch
    else if !(comparedCols.all fun c => new_data.cols.contains c && current_data.cols.contains c) then
      Except.error UpsertErr.schemaMismatch
    else if !(sameColSet new_data.cols current_data.cols) then
      Except.error UpsertErr.schemaMismatch
    else
      Except.ok (final_df new_data current_data primary_keys pk0,
        "Data successfully updated and loaded to Aurora table: " ++ aurora_table_name)

/-- The destination table after one invocation: the overwrite replaces the
prior contents with the reconciled rows; when the operation fails the
write never happens and the prior contents survive. -/
def runUpsertOnDest (dest : List Row) (current_data new_data : DF)
    (primary_keys : List String)
    (aurora_jdbc_url aurora_table_name : String)
    (aurora_properties : List (String × String)) : List Row :=
  match update_and_load_to_aurora current_data new_data primary_keys
      aurora_jdbc_url aurora_table_name aurora_properties with
  | Except.ok (rows, _) => rows
  | Except.error _ => dest

/-- All rows of the list have every primary-key column non-NULL. -/
def keysDefinedB (pks : List String) (rows : List Row) : Bool :=
  rows.all fun r => pks.all fun k => (rowGet r k).isSome

/-- All rows of the list have pairwise distinct key tuples
(primary-key uniqueness). -/
def keysDistinct (pks : List String) : List Row → Bool
  | [] => true
  | r :: rs =>
    (rs.all fun x => !(decide (keyOf pks x = keyOf pks r))) && keysDistinct pks rs

/-- All rows of the list have both compared columns non-NULL. -/
def comparedDefinedB (rows : List Row) : Bool :=
  rows.all fun r => comparedCols.all fun c => (rowGet r c).isSome

/-- The spec's standing preconditions on an invocation (§3, §4.1):
both schemas contain every primary-key column and both compared columns,
the two schemas agree as sets (required by `unionByName`), key columns
are non-NULL, and primary-key uniqueness holds in both inputs. -/
def specAssumptions (new_data current_data : DF) (pks : List String) : Bool :=
  (pks.all fun k => new_data.cols.contains k && current_data.cols.contains k)
  && (comparedCols.all fun c => new_data.cols.contains c && current_data.cols.contains c)
  && sameColSet new_data.cols current_data.cols
  && keysDefinedB pks new_data.rows
  && keysDefinedB pks current_data.rows
  && keysDistinct pks new_data.rows
  && keysDistinct pks current_data.rows

/-- Number of new rows whose key appears in no current row ("New minus
Current-keys-overlap"). -/
def newOnlyCount (new_data current_data : DF) (pks : List String) : Nat :=
  (new_data.rows.filter fun n =>
    !(current_data.rows.any fun c => keysMatch pks n c)).length

/-- Number of new rows whose key appears in some current row
("the overlap"). -/
def overlapCount (new_data current_data : DF) (pks : List String) : Nat :=
  (new_data.rows.filter fun n =>
    current_data.rows.any fun c => keysMatch pks n c).length

/-- The matched pairs of the join: every (new row, current row) pair that
agrees on the keys. -/
def matchedPairs : List Row → List Row → List String → List (Row × Row)
  | [], _, _ => []
  | n :: ns, cs, pks =>
    ((matchesOf cs pks n).map fun c => (n, c)) ++ matchedPairs ns cs pks

/-! ### Concrete datasets used by counterexamples and witnesses -/

/-- Spec §8 example `Current`, exactly as written there: rows carry only
`id` and `value_col`. -/
def exCurrent6 : DF :=
  ⟨["id", "value_col"],
   [[("id", some (Cell.int 1)), ("value_col", some (Cell.str "a"))],
    [("id", some (Cell.int 2)), ("value_col", some (Cell.str "b"))]]⟩

/-- Spec §8 example `New`, exactly as written there. -/
def exNew6 : DF :=
  ⟨["id", "value_col"],
   [[("id", some (Cell.int 2)), ("value_col", some (Cell.str "B"))],
    [("id", some (Cell.int 3)), ("value_col", some (Cell.str "c"))]]⟩

/-- The §8 example `Current` extended with the second hard-coded compared
column `another_col` (equal on every row), the minimal repair that makes
the hard-coded filter columns exist. -/
def exCurrent6x : DF :=
  ⟨["id", "value_col", "another_col"],
   [[("id", some (Cell.int 1)), ("value_col", some (Cell.str "a")),
     ("another_col", some (Cell.str "x"))],
    [("id", some (Cell.int 2)), ("value_col", some (Cell.str "b")),
     ("another_col", some (Cell.str "x"))]]⟩

/-- The §8 example `New` extended with `another_col`. -/
def exNew6x : DF :=
  ⟨["id", "value_col", "another_col"],
   [[("id", some (Cell.int 2)), ("value_col", some (Cell.str "B")),
     ("another_col", some (Cell.str "x"))],
    [("id", some (Cell.int 3)), ("value_col", some (Cell.str "c")),
     ("another_col", some (Cell.str "x"))]]⟩

/-- A dataset with one row whose `value_col` is NULL and whose
`another_col` is a non-NULL value. -/
def exCurrentNull : DF :=
  ⟨["id", "value_col", "another_col"],
   [[("id", some (Cell.int 1)), ("value_col", none),
     ("another_col", some (Cell.str "x"))]]⟩

/-- The same single NULL-bearing row arriving as the new batch. -/
def exNewNull : DF := exCurrentNull

/-- Current data for key 1: `value_col` non-NULL, `another_col` "z". -/
def exCurrentX : DF :=
  ⟨["id", "value_col", "another_col"],
   [[("id", some (Cell.int 1)), ("value_col", some (Cell.str "v")),
     ("another_col", some (Cell.str "z"))]]⟩

/-- New data for key 1: `value_col` NULL, `another_col` "y" (a genuine
non-NULL difference against `exCurrentX`). -/
def exNewX : DF :=
  ⟨["id", "value_col", "another_col"],
   [[("id", some (Cell.int 1)), ("value_col", none),
     ("another_col", some (Cell.str "y"))]]⟩

/-- Current data for key 1: both compared columns non-NULL. -/
def exCurrentY : DF :=
  ⟨["id", "value_col", "another_col"],
   [[("id", some (Cell.int 1)), ("value_col", some (Cell.str "v")),
     ("another_col", some (Cell.str "x"))]]⟩

/-- New data for key 1: `value_col` NULL against `exCurrentY`'s non-NULL
value, `another_col` equal. -/
def exNewY : DF :=
  ⟨["id", "value_col", "another_col"],
   [[("id", some (Cell.int 1)), ("value_col", none),
     ("another_col", some (Cell.str "x"))]]⟩

/-- Row of key 1, present only in the current data (will be dropped). -/
def rowA : Row :=
  [("id", some (Cell.int 1)), ("value_col", some (Cell.str "a")),
   ("another_col", some (Cell.str "x"))]

/-- Row of key 2 as currently stored. -/
def rowB : Row :=
  [("id", some (Cell.int 2)), ("value_col", some (Cell.str "b")),
   ("another_col", some (Cell.str "x"))]

/-- Row of key 2 in the new batch, with a changed `value_col`. -/
def rowBn : Row :=
  [("id", some (Cell.int 2)), ("value_col", some (Cell.str "B")),
   ("another_col", some (Cell.str "x"))]

/-- Row of key 3, present only in the new batch (an insert). -/
def rowC : Row :=
  [("id", some (Cell.int 3)), ("value_col", some (Cell.str "c")),
   ("another_col", some (Cell.str "x"))]

/-- Row of key 4, identical in both datasets (unchanged). -/
def rowD : Row :=
  [("id", some (Cell.int 4)), ("value_col", some (Cell.str "d")),
   ("another_col", some (Cell.str "x"))]

/-- Witness current data: keys 1 (deleted), 2 (updated) and 4 (unchanged). -/
def wCurrent : DF := ⟨["id", "value_col", "another_col"], [rowA, rowB, rowD]⟩

/-- Witness new data: keys 2 (updated), 3 (inserted) and 4 (unchanged). -/
def wNew : DF := ⟨["id", "value_col", "another_col"], [rowBn, rowC, rowD]⟩

/-! ### Basic lemmas about rows, selection and key matching -/

@[simp] theorem pairGet_none (c : String) : pairGet none c = none := rfl

@[simp] theorem pairGet_some (r : Row) (c : String) : pairGet (some r) c = rowGet r c := rfl

theorem rowGet_selectVals (get : String → Val) (cols : List String) (x : String) :
    rowGet (selectVals get cols) x = if x ∈ cols then get x else none := by
  induction cols with
  | nil => rfl
  | cons c cs ih =>
    show (if c = x then get c else rowGet (selectVals get cs) x) = _
    by_cases hcx : c = x
    · subst hcx
      rw [if_pos rfl, if_pos (List.mem_cons_self c cs)]
    · rw [if_neg hcx, ih]
      by_cases hx : x ∈ cs
      · rw [if_pos hx, if_pos (List.mem_cons_of_mem c hx)]
      · rw [if_neg hx, if_neg ?_]
        intro hmem
        rcases List.mem_cons.mp hmem with h1 | h1
        · exact hcx h1.symm
        · exact hx h1

theorem rowGet_alignTo (cols : List String) (r : Row) (x : String) :
    rowGet (alignTo cols r) x = if x ∈ cols then rowGet r x else none :=
  rowGet_selectVals (rowGet r) cols x

theorem keyOf_selectVals (pks : List String) (get : String → Val) (cols : List String)
    (hsub : ∀ k ∈ pks, k ∈ cols) :
    keyOf pks (selectVals get cols) = pks.map get := by
  unfold keyOf
  refine List.map_congr_left ?_
  intro k hk
  rw [rowGet_selectVals, if_pos (hsub k hk)]

theorem keyOf_alignTo (pks : List String) (cols : List String) (r : Row)
    (hsub : ∀ k ∈ pks, k ∈ cols) :
    keyOf pks (alignTo cols r) = keyOf pks r := by
  unfold keyOf
  refine List.map_congr_left ?_
  intro k hk
  rw [rowGet_alignTo, if_pos (hsub k hk)]

theorem map_eq_pointwise {α β : Type} {f g : α → β} :
    ∀ {l : List α}, l.map f = l.map g → ∀ a ∈ l, f a = g a := by
  intro l
  induction l with
  | nil => intro _ a ha; cases ha
  | cons x xs ih =>
    intro hmap a ha
    simp only [List.map_cons, List.cons.injEq] at hmap
    rcases List.mem_cons.mp ha with hax | hax
    · exact hax ▸ hmap.1
    · exact ih hmap.2 a hax

theorem keysMatch_rowGet {pks : List String} {n c : Row}
    (h : keysMatch pks n c = true) :
    ∀ k ∈ pks, rowGet n k = rowGet c k ∧ (rowGet n k).isSome = true := by
  intro k hk
  have hall := (List.all_eq_true.mp h) k hk
  cases hn : rowGet n k with
  | none => rw [hn] at hall; simp at hall
  | some a =>
    cases hc : rowGet c k with
    | none => rw [hn, hc] at hall; simp at hall
    | some b =>
      rw [hn, hc] at hall
      simp only [decide_eq_true_eq] at hall
      exact ⟨by rw [hall], rfl⟩

theorem keysMatch_keyOf {pks : List String} {n c : Row}
    (h : keysMatch pks n c = true) : keyOf pks n = keyOf pks c := by
  unfold keyOf
  exact List.map_congr_left fun k hk => (keysMatch_rowGet h k hk).1

theorem keysMatch_of_pointwise {pks : List String} {n r : Row}
    (hdef : ∀ k ∈ pks, (rowGet n k).isSome = true)
    (heq : ∀ k ∈ pks, rowGet r k = rowGet n k) :
    keysMatch pks n r = true := by
  unfold keysMatch
  refine List.all_eq_true.mpr ?_
  intro k hk
  have hd := hdef k hk
  rw [heq k hk]
  cases hn : rowGet n k with
  | none => rw [hn] at hd; simp at hd
  | some a => simp

theorem keysMatch_of_keyOf {pks : List String} {n r : Row}
    (hdef : ∀ k ∈ pks, (rowGet n k).isSome = true)
    (hkey : keyOf pks r = keyOf pks n) :
    keysMatch pks n r = true :=
  keysMatch_of_pointwise hdef (map_eq_pointwise hkey)

/-! ### Lemmas about the precondition predicates -/

theorem keysDefinedB_rowGet {pks : List String} {rows : List Row}
    (h : keysDefinedB pks rows = true) :
    ∀ r ∈ rows, ∀ k ∈ pks, (rowGet r k).isSome = true := by
  intro r hr k hk
  exact List.all_eq_true.mp (List.all_eq_true.mp h r hr) k hk

theorem comparedDefinedB_rowGet {rows : List Row}
    (h : comparedDefinedB rows = true) :
    ∀ r ∈ rows, ∀ c ∈ comparedCols, (rowGet r c).isSome = true := by
  intro r hr c hc
  exact List.all_eq_true.mp (List.all_eq_true.mp h r hr) c hc

theorem keysDistinct_cons {pks : List String} {r : Row} {rs : List Row}
    (h : keysDistinct pks (r :: rs) = true) :
    (∀ x ∈ rs, keyOf pks x ≠ keyOf pks r) ∧ keysDistinct pks rs = true := by
  unfold keysDistinct at h
  rw [Bool.and_eq_true, List.all_eq_true] at h
  refine ⟨fun x hx => ?_, h.2⟩
  have := h.1 x hx
  simpa using this

theorem keysDistinct_inj {pks : List String} :
    ∀ {l : List Row}, keysDistinct pks l = true →
      ∀ a ∈ l, ∀ b ∈ l, keyOf pks a = keyOf pks b → a = b := by
  intro l
  induction l with
  | nil => intro _ a ha; cases ha
  | cons x xs ih =>
    intro h a ha b hb hab
    obtain ⟨hhead, htail⟩ := keysDistinct_cons h
    rcases List.mem_cons.mp ha with hax | hax <;> rcases List.mem_cons.mp hb with hbx | hbx
    · rw [hax, hbx]
    · exact absurd (hax ▸ hab.symm) (hhead b hbx)
    · exact absurd (hbx ▸ hab) (hhead a hax)
    · exact ih htail a hax b hbx hab

theorem filter_keysMatch_singleton {pks : List String} {n0 c0 : Row} :
    ∀ {cs : List Row}, keysDistinct pks cs = true → c0 ∈ cs →
      keysMatch pks n0 c0 = true →
      cs.filter (fun c => keysMatch pks n0 c) = [c0] := by
  intro cs
  induction cs with
  | nil => intro _ hc; cases hc
  | cons x xs ih =>
    intro hdist hc0 hm
    obtain ⟨hhead, htail⟩ := keysDistinct_cons hdist
    rcases List.mem_cons.mp hc0 with hcx | hcx
    · subst hcx
      rw [List.filter_cons_of_pos hm]
      have hxs : xs.filter (fun c => keysMatch pks n0 c) = [] := by
        rw [List.filter_eq_nil_iff]
        intro c hc hmc
        exact hhead c hc ((keysMatch_keyOf hmc).symm.trans (keysMatch_keyOf hm))
      rw [hxs]
    · have hxnot : keysMatch pks n0 x = false := by
        cases hnx : keysMatch pks n0 x with
        | false => rfl
        | true =>
          exact absurd ((keysMatch_keyOf hm).symm.trans (keysMatch_keyOf hnx))
            (hhead c0 hcx)
      rw [List.filter_cons_of_neg (by simp [hxnot])]
      exact ih htail hcx hm

theorem matchesOf_eq_nil {cs : List Row} {pks : List String} {n : Row} :
    matchesOf cs pks n = [] ↔ (cs.any fun c => keysMatch pks n c) = false := by
  unfold matchesOf
  rw [List.filter_eq_nil_iff, List.any_eq_false]

theorem matchesOf_singleton {cs : List Row} {pks : List String} {n0 c0 : Row}
    (hdist : keysDistinct pks cs = true) (hc0 : c0 ∈ cs)
    (hm : keysMatch pks n0 c0 = true) :
    matchesOf cs pks n0 = [c0] :=
  filter_keysMatch_singleton hdist hc0 hm

/-! ### Three-valued-logic lemmas -/

theorem orTV_eq_ff {a b : TV} : orTV a b = TV.ff ↔ a = TV.ff ∧ b = TV.ff := by
  cases a <;> cases b <;> simp [orTV]

theorem orTV_eq_tt {a b : TV} : orTV a b = TV.tt ↔ a = TV.tt ∨ b = TV.tt := by
  cases a <;> cases b <;> simp [orTV]

theorem neqTV_eq_ff {a b : Val} :
    neqTV a b = TV.ff ↔ ∃ v, a = some v ∧ b = some v := by
  cases a with
  | none => simp [neqTV]
  | some x =>
    cases b with
    | none => simp [neqTV]
    | some y =>
      by_cases h : x = y
      · subst h
        simp [neqTV]
      · simp only [neqTV, if_neg h]
        constructor
        · intro hff
          cases hff
        · rintro ⟨v, hv1, hv2⟩
          rw [Option.some_inj] at hv1 hv2
          exact absurd (hv1.trans hv2.symm) h

theorem neqTV_eq_tt {a b : Val} :
    neqTV a b = TV.tt ↔ ∃ x y, a = some x ∧ b = some y ∧ x ≠ y := by
  cases a with
  | none => simp [neqTV]
  | some x =>
    cases b with
    | none => simp [neqTV]
    | some y =>
      by_cases h : x = y
      · subst h
        simp only [neqTV, if_pos rfl]
        constructor
        · intro htt
          cases htt
        · rintro ⟨u, v, hu, hv, huv⟩
          rw [Option.some_inj] at hu hv
          exact absurd (hu.symm.trans hv) huv
      · simp only [neqTV, if_neg h]
        exact ⟨fun _ => ⟨x, y, rfl, rfl, h⟩, fun _ => trivial⟩

theorem neqTV_self {a : Val} (h : a.isSome = true) : neqTV a a = TV.ff := by
  cases a with
  | none => simp at h
  | some x => simp [neqTV]

theorem neqTV_none_left {b : Val} : neqTV none b = TV.nn := by
  cases b <;> rfl

theorem neqTV_none_right {a : Val} : neqTV a none = TV.nn := by
  cases a <;> rfl

theorem changedCond_closed {n c : Row}
    (h1 : (rowGet n "value_col").isSome = true)
    (h2 : (rowGet c "value_col").isSome = true)
    (h3 : (rowGet n "another_col").isSome = true)
    (h4 : (rowGet c "another_col").isSome = true) :
    changedCond (some n, some c) = TV.tt ∨ changedCond (some n, some c) = TV.ff := by
  unfold changedCond
  simp only [pairGet_some]
  cases hv1 : rowGet n "value_col" with
  | none => rw [hv1] at h1; simp at h1
  | some a =>
    cases hv2 : rowGet c "value_col" with
    | none => rw [hv2] at h2; simp at h2
    | some b =>
      cases hv3 : rowGet n "another_col" with
      | none => rw [hv3] at h3; simp at h3
      | some d =>
        cases hv4 : rowGet c "another_col" with
        | none => rw [hv4] at h4; simp at h4
        | some e =>
          by_cases hab : a = b <;> by_cases hde : d = e <;>
            simp [neqTV, orTV, hab, hde]

theorem changedCond_ff {n c : Row}
    (h : changedCond (some n, some c) = TV.ff) :
    rowGet n "value_col" = rowGet c "value_col"
      ∧ (rowGet n "value_col").isSome = true
      ∧ rowGet n "another_col" = rowGet c "another_col"
      ∧ (rowGet n "another_col").isSome = true := by
  unfold changedCond at h
  simp only [pairGet_some] at h
  obtain ⟨hl, hr⟩ := orTV_eq_ff.mp h
  obtain ⟨v, hv1, hv2⟩ := neqTV_eq_ff.mp hl
  obtain ⟨w, hw1, hw2⟩ := neqTV_eq_ff.mp hr
  exact ⟨by rw [hv1, hv2], by rw [hv1]; rfl, by rw [hw1, hw2], by rw [hw1]; rfl⟩

theorem changedCond_eq_ff_of_eq {n c : Row}
    (hv : rowGet c "value_col" = rowGet n "value_col")
    (ha : rowGet c "another_col" = rowGet n "another_col")
    (h1 : (rowGet n "value_col").isSome = true)
    (h3 : (rowGet n "another_col").isSome = true) :
    changedCond (some n, some c) = TV.ff := by
  unfold changedCond
  simp only [pairGet_some]
  rw [hv, ha, neqTV_self h1, neqTV_self h3]
  rfl

/-! ### Counting lemmas for the join and the buckets -/

theorem countP_map_filter {α β : Type} (l : List α) (g : α → Bool) (f : α → β) (q : β → Bool) :
    ((l.filter g).map f).countP q = l.countP fun a => q (f a) && g a := by
  rw [List.countP_map, List.countP_filter]
  rfl

theorem countP_joinLeft (F : JRow → Bool) :
    ∀ (ns cs : List Row) (pks : List String),
    (joinLeft ns cs pks).countP F
      = ns.countP (fun n => F (some n, none) && !(cs.any fun c => keysMatch pks n c))
      + (matchedPairs ns cs pks).countP fun nc => F (some nc.1, some nc.2) := by
  intro ns
  induction ns with
  | nil => intro cs pks; simp [joinLeft, matchedPairs]
  | cons n ns ih =>
    intro cs pks
    rw [joinLeft, matchedPairs, List.countP_append, List.countP_append, List.countP_cons]
    cases hms : matchesOf cs pks n with
    | nil =>
      have hany : (cs.any fun c => keysMatch pks n c) = false := matchesOf_eq_nil.mp hms
      rw [ih cs pks]
      simp only [List.map_nil, List.countP_nil, List.countP_cons, hany]
      cases hF : F (some n, none) <;> simp <;> omega
    | cons m ms =>
      have hany : (cs.any fun c => keysMatch pks n c) = true := by
        cases h2 : cs.any fun c => keysMatch pks n c with
        | false => rw [matchesOf_eq_nil.mpr h2] at hms; cases hms
        | true => rfl
      rw [ih cs pks, List.countP_map]
      simp only [hany, Bool.not_true, Bool.and_false, if_neg (by simp : ¬(false = true))]
      have hcomp : ((m :: ms).countP (F ∘ fun c => ((some n : Option Row), (some c : Option Row))))
          = (List.map (fun c => (n, c)) (m :: ms)).countP fun nc => F (some nc.1, some nc.2) := by
        rw [List.countP_map]
        rfl
      rw [hcomp]
      omega

theorem countP_fullOuterJoin (F : JRow → Bool) (ns cs : List Row) (pks : List String) :
    (fullOuterJoin ns cs pks).countP F
      = ns.countP (fun n => F (some n, none) && !(cs.any fun c => keysMatch pks n c))
      + (matchedPairs ns cs pks).countP (fun nc => F (some nc.1, some nc.2))
      + cs.countP fun c => F (none, some c) && !(ns.any fun n => keysMatch pks n c) := by
  unfold fullOuterJoin
  rw [List.countP_append, countP_joinLeft, List.countP_map, List.countP_filter]
  rfl

theorem mem_matchedPairs {ns cs : List Row} {pks : List String} {x : Row × Row} :
    x ∈ matchedPairs ns cs pks ↔ x.1 ∈ ns ∧ x.2 ∈ cs ∧ keysMatch pks x.1 x.2 = true := by
  induction ns with
  | nil => simp [matchedPairs]
  | cons n ns ih =>
    rw [matchedPairs]
    constructor
    · intro hx
      rcases List.mem_append.mp hx with hx | hx
      · rcases List.mem_map.mp hx with ⟨c, hc, hceq⟩
        have hcf := List.mem_filter.mp (show c ∈ cs.filter (fun c => keysMatch pks n c) from hc)
        rw [← hceq]
        exact ⟨List.mem_cons_self n ns, hcf.1, hcf.2⟩
      · obtain ⟨h1, h2, h3⟩ := ih.mp hx
        exact ⟨List.mem_cons_of_mem n h1, h2, h3⟩
    · rintro ⟨h1, h2, h3⟩
      rcases List.mem_cons.mp h1 with he | he
      · refine List.mem_append.mpr (Or.inl (List.mem_map.mpr ⟨x.2, ?_, ?_⟩))
        · exact List.mem_filter.mpr ⟨h2, by rw [← he]; exact h3⟩
        · rw [← he]
      · exact List.mem_append.mpr (Or.inr (ih.mpr ⟨he, h2, h3⟩))

theorem countP_key_localized {pks : List String} {n0 : Row} (B : Row → Bool) :
    ∀ {ns : List Row}, keysDistinct pks ns = true → n0 ∈ ns →
      (ns.countP fun n => decide (keyOf pks n = keyOf pks n0) && B n)
        = if B n0 = true then 1 else 0 := by
  intro ns
  induction ns with
  | nil => intro _ h; cases h
  | cons x xs ih =>
    intro hd hmem
    obtain ⟨hhead, htail⟩ := keysDistinct_cons hd
    rw [List.countP_cons]
    rcases List.mem_cons.mp hmem with he | he
    · subst he
      have hz : (xs.countP fun n => decide (keyOf pks n = keyOf pks n0) && B n) = 0 := by
        rw [List.countP_eq_zero]
        intro a ha
        simp only [Bool.and_eq_true, decide_eq_true_eq, not_and]
        intro h1
        exact absurd h1 (hhead a ha)
      rw [hz]
      simp
    · have hx : decide (keyOf pks x = keyOf pks n0) = false := by
        simp only [decide_eq_false_iff_not]
        intro hcon
        exact hhead n0 he hcon.symm
      rw [ih htail he]
      simp [hx]

theorem countP_matchedPairs_key {pks : List String} {n0 c0 : Row} (G : Row × Row → Bool) :
    ∀ {ns : List Row}, ∀ {cs : List Row},
      keysDistinct pks ns = true → keysDistinct pks cs = true →
      n0 ∈ ns → c0 ∈ cs → keysMatch pks n0 c0 = true →
      ((matchedPairs ns cs pks).countP fun nc =>
          decide (keyOf pks nc.1 = keyOf pks n0) && G nc)
        = if G (n0, c0) = true then 1 else 0 := by
  intro ns
  induction ns with
  | nil => intro cs _ _ h; cases h
  | cons x xs ih =>
    intro cs hdn hdc hn0 hc0 hm
    obtain ⟨hhead, htail⟩ := keysDistinct_cons hdn
    rw [matchedPairs, List.countP_append, List.countP_map]
    rcases List.mem_cons.mp hn0 with he | he
    · subst he
      rw [matchesOf_singleton hdc hc0 hm]
      have hz : ((matchedPairs xs cs pks).countP fun nc =>
          decide (keyOf pks nc.1 = keyOf pks n0) && G nc) = 0 := by
        rw [List.countP_eq_zero]
        intro nc hnc
        obtain ⟨h1, _, _⟩ := mem_matchedPairs.mp hnc
        simp only [Bool.and_eq_true, decide_eq_true_eq, not_and]
        intro hk
        exact absurd hk (hhead nc.1 h1)
      rw [hz]
      simp only [List.countP_cons, List.countP_nil, Function.comp, Nat.add_zero, Nat.zero_add]
      cases hG : G (n0, c0) <;> simp [hG]
    · have hz : (([c0].map fun c => (x, c)).countP fun nc =>
          decide (keyOf pks nc.1 = keyOf pks n0) && G nc) = 0 := by
        simp only [List.map_cons, List.map_nil, List.countP_cons, List.countP_nil]
        have hx : decide (keyOf pks x = keyOf pks n0) = false := by
          simp only [decide_eq_false_iff_not]
          intro hcon
          exact hhead n0 he hcon.symm
        simp [hx]
      have hz2 : ((matchesOf cs pks x).countP
          ((fun nc => decide (keyOf pks nc.1 = keyOf pks n0) && G nc) ∘ fun c => (x, c))) = 0 := by
        rw [List.countP_eq_zero]
        intro c _
        have hx : decide (keyOf pks x = keyOf pks n0) = false := by
          simp only [decide_eq_false_iff_not]
          intro hcon
          exact hhead n0 he hcon.symm
        simp [Function.comp, hx]
      rw [hz2, ih htail hdc he hc0 hm]
      exact Nat.zero_add _

theorem countP_matchedPairs_key_zero {pks : List String} {n0 : Row} {ns cs : List Row}
    (G : Row × Row → Bool)
    (hdn : keysDistinct pks ns = true) (hn0 : n0 ∈ ns)
    (hany : (cs.any fun c => keysMatch pks n0 c) = false) :
    ((matchedPairs ns cs pks).countP fun nc =>
        decide (keyOf pks nc.1 = keyOf pks n0) && G nc) = 0 := by
  rw [List.countP_eq_zero]
  intro nc hnc
  obtain ⟨h1, h2, h3⟩ := mem_matchedPairs.mp hnc
  simp only [Bool.and_eq_true, decide_eq_true_eq, not_and]
  intro hk
  have he : nc.1 = n0 := keysDistinct_inj hdn nc.1 h1 n0 hn0 hk
  rw [he] at h3
  have := List.any_eq_false.mp hany nc.2 h2
  intro _
  exact absurd h3 this

theorem countP_matchedPairs_notkey {pks : List String} {k : List Val} {ns cs : List Row}
    (G : Row × Row → Bool)
    (h : ∀ n ∈ ns, keyOf pks n ≠ k) :
    ((matchedPairs ns cs pks).countP fun nc =>
        decide (keyOf pks nc.1 = k) && G nc) = 0 := by
  rw [List.countP_eq_zero]
  intro nc hnc
  obtain ⟨h1, _, _⟩ := mem_matchedPairs.mp hnc
  simp only [Bool.and_eq_true, decide_eq_true_eq, not_and]
  intro hk
  exact absurd hk (h nc.1 h1)

theorem length_matchedPairs {pks : List String} :
    ∀ {ns cs : List Row}, keysDistinct pks cs = true →
      (matchedPairs ns cs pks).length
        = ns.countP fun n => cs.any fun c => keysMatch pks n c := by
  intro ns
  induction ns with
  | nil => intro cs _; simp [matchedPairs]
  | cons n ns ih =>
    intro cs hdc
    rw [matchedPairs, List.length_append, List.length_map, List.countP_cons, ih hdc]
    cases hany : cs.any fun c => keysMatch pks n c with
    | false =>
      rw [matchesOf_eq_nil.mpr hany]
      simp
    | true =>
      obtain ⟨c0, hc0, hm⟩ := List.any_eq_true.mp hany
      rw [matchesOf_singleton hdc hc0 hm]
      simp
      omega

/-! ### Projection and schema lemmas -/

theorem map_pairGet_some (pks : List String) (n : Row) :
    pks.map (pairGet (some n)) = keyOf pks n :=
  List.map_congr_left fun _ _ => rfl

theorem keyOf_proj (pks cols : List String) (s : Option Row)
    (hsub : ∀ k ∈ pks, k ∈ cols) :
    keyOf pks (selectVals (pairGet s) cols) = pks.map (pairGet s) :=
  keyOf_selectVals pks (pairGet s) cols hsub

theorem keyOf_align_proj (pks cols1 cols2 : List String) (s : Option Row)
    (hsub1 : ∀ k ∈ pks, k ∈ cols1) (hsub2 : ∀ k ∈ pks, k ∈ cols2) :
    keyOf pks (alignTo cols1 (selectVals (pairGet s) cols2)) = pks.map (pairGet s) := by
  rw [keyOf_alignTo pks cols1 _ hsub1]
  exact keyOf_proj pks cols2 s hsub2

theorem contains_mem {l : List String} {a : String} (h : l.contains a = true) :
    a ∈ l := by
  simpa using h

theorem sameColSet_mem {a b : List String} (h : sameColSet a b = true) :
    (∀ x ∈ a, x ∈ b) ∧ ∀ x ∈ b, x ∈ a := by
  unfold sameColSet at h
  rw [Bool.and_eq_true, List.all_eq_true, List.all_eq_true] at h
  exact ⟨fun x hx => contains_mem (h.1 x hx), fun x hx => contains_mem (h.2 x hx)⟩

theorem mem_updCols {pks cols : List String} {x : String} (hx : x ∈ cols) :
    x ∈ updCols pks cols := by
  unfold updCols
  rw [List.mem_append]
  by_cases hp : x ∈ pks
  · exact Or.inl hp
  · refine Or.inr (List.mem_filter.mpr ⟨hx, ?_⟩)
    simp [hp]

theorem mem_updCols_of_pk {pks cols : List String} {x : String} (hx : x ∈ pks) :
    x ∈ updCols pks cols := by
  unfold updCols
  exact List.mem_append.mpr (Or.inl hx)

theorem specAssumptions_parts {new_data current_data : DF} {pks : List String}
    (h : specAssumptions new_data current_data pks = true) :
    (pks.all fun k => new_data.cols.contains k && current_data.cols.contains k) = true
    ∧ (comparedCols.all fun c => new_data.cols.contains c && current_data.cols.contains c) = true
    ∧ sameColSet new_data.cols current_data.cols = true
    ∧ keysDefinedB pks new_data.rows = true
    ∧ keysDefinedB pks current_data.rows = true
    ∧ keysDistinct pks new_data.rows = true
    ∧ keysDistinct pks current_data.rows = true := by
  unfold specAssumptions at h
  simp only [Bool.and_eq_true] at h
  tauto

theorem all_contains_sub_left {pks colsa colsb : List String}
    (h : (pks.all fun k => colsa.contains k && colsb.contains k) = true) :
    ∀ k ∈ pks, k ∈ colsa := by
  intro k hk
  have := List.all_eq_true.mp h k hk
  rw [Bool.and_eq_true] at this
  exact contains_mem this.1

theorem all_contains_sub_right {pks colsa colsb : List String}
    (h : (pks.all fun k => colsa.contains k && colsb.contains k) = true) :
    ∀ k ∈ pks, k ∈ colsb := by
  intro k hk
  have := List.all_eq_true.mp h k hk
  rw [Bool.and_eq_true] at this
  exact contains_mem this.2

theorem update_and_load_ok {new_data current_data : DF} {pk0 : String} {pkr : List String}
    (h : specAssumptions new_data current_data (pk0 :: pkr) = true)
    (u t : String) (props : List (String × String)) :
    update_and_load_to_aurora current_data new_data (pk0 :: pkr) u t props
      = Except.ok (final_df new_data current_data (pk0 :: pkr) pk0,
          "Data successfully updated and loaded to Aurora table: " ++ t) := by
  obtain ⟨h1, h2, h3, _⟩ := specAssumptions_parts h
  unfold update_and_load_to_aurora
  rw [h1, h2, h3]
  simp

/-! ### Counting the reconciled dataset -/

theorem countP_final (q : Row → Bool) (new_data current_data : DF)
    (pks : List String) (pk0 : String) :
    (final_df new_data current_data pks pk0).countP q
      = (joined_df new_data current_data pks).countP
          (fun p => q (selectVals (pairGet p.1) new_data.cols) && newFilter pk0 p)
      + (joined_df new_data current_data pks).countP
          (fun p => q (alignTo new_data.cols
              (selectVals (pairGet p.1) (updCols pks new_data.cols))) && updFilter pk0 p)
      + (joined_df new_data current_data pks).countP
          (fun p => q (alignTo new_data.cols
              (selectVals (pairGet p.2) current_data.cols)) && unchFilter pk0 p) := by
  unfold final_df new_rows updated_rows unchanged_rows
  rw [List.countP_append, List.countP_append, List.map_map, List.map_map,
    countP_map_filter, countP_map_filter, countP_map_filter]
  rfl

theorem length_final (new_data current_data : DF) (pks : List String) (pk0 : String) :
    (final_df new_data current_data pks pk0).length
      = (joined_df new_data current_data pks).countP (newFilter pk0)
      + (joined_df new_data current_data pks).countP (updFilter pk0)
      + (joined_df new_data current_data pks).countP (unchFilter pk0) := by
  unfold final_df new_rows updated_rows unchanged_rows
  rw [List.length_append, List.length_append, List.length_map, List.length_map,
    List.length_map, List.length_map, List.length_map,
    ← List.countP_eq_length_filter, ← List.countP_eq_length_filter,
    ← List.countP_eq_length_filter]

theorem isNone_eq_false {v : Val} (h : v.isSome = true) : v.isNone = false := by
  cases v with
  | none => simp at h
  | some x => rfl

theorem bucketA_count {ns cs : List Row} {pk0 : String} {pkr : List String} (k : List Val)
    (hdefc : keysDefinedB (pk0 :: pkr) cs = true) :
    ((fullOuterJoin ns cs (pk0 :: pkr)).countP fun p =>
        decide ((pk0 :: pkr).map (pairGet p.1) = k) && newFilter pk0 p)
      = ns.countP fun n => decide (keyOf (pk0 :: pkr) n = k)
          && !(cs.any fun c => keysMatch (pk0 :: pkr) n c) := by
  rw [countP_fullOuterJoin]
  have hT2 : ((matchedPairs ns cs (pk0 :: pkr)).countP fun nc =>
      decide ((pk0 :: pkr).map (pairGet (some nc.1)) = k)
        && newFilter pk0 (some nc.1, some nc.2)) = 0 := by
    rw [List.countP_eq_zero]
    intro nc hnc
    obtain ⟨_, h2, _⟩ := mem_matchedPairs.mp hnc
    have hs := keysDefinedB_rowGet hdefc nc.2 h2 pk0 (List.mem_cons_self pk0 pkr)
    simp [newFilter, isNone_eq_false hs]
  have hT3 : (cs.countP fun c =>
      (decide ((pk0 :: pkr).map (pairGet none) = k) && newFilter pk0 (none, some c))
        && !(ns.any fun n => keysMatch (pk0 :: pkr) n c)) = 0 := by
    rw [List.countP_eq_zero]
    intro c hc
    have hs := keysDefinedB_rowGet hdefc c hc pk0 (List.mem_cons_self pk0 pkr)
    simp [newFilter, isNone_eq_false hs]
  rw [hT2, hT3]
  simp only [Nat.add_zero]
  refine List.countP_congr ?_
  intro n _
  simp [newFilter, map_pairGet_some, keyOf]

theorem bucketB_count {ns cs : List Row} {pk0 : String} {pkr : List String} (k : List Val) :
    ((fullOuterJoin ns cs (pk0 :: pkr)).countP fun p =>
        decide ((pk0 :: pkr).map (pairGet p.1) = k) && updFilter pk0 p)
      = (matchedPairs ns cs (pk0 :: pkr)).countP fun nc =>
          decide (keyOf (pk0 :: pkr) nc.1 = k)
            && updFilter pk0 (some nc.1, some nc.2) := by
  rw [countP_fullOuterJoin]
  have hT1 : (ns.countP fun n =>
      (decide ((pk0 :: pkr).map (pairGet (some n)) = k) && updFilter pk0 (some n, none))
        && !(cs.any fun c => keysMatch (pk0 :: pkr) n c)) = 0 := by
    rw [List.countP_eq_zero]
    intro n _
    simp [updFilter]
  have hT3 : (cs.countP fun c =>
      (decide ((pk0 :: pkr).map (pairGet none) = k) && updFilter pk0 (none, some c))
        && !(ns.any fun n => keysMatch (pk0 :: pkr) n c)) = 0 := by
    rw [List.countP_eq_zero]
    intro c _
    simp [updFilter]
  rw [hT1, hT3]
  simp only [Nat.zero_add, Nat.add_zero]
  refine List.countP_congr ?_
  intro nc _
  simp [map_pairGet_some, keyOf]

theorem bucketC_count {ns cs : List Row} {pk0 : String} {pkr : List String} (k : List Val) :
    ((fullOuterJoin ns cs (pk0 :: pkr)).countP fun p =>
        decide ((pk0 :: pkr).map (pairGet p.2) = k) && unchFilter pk0 p)
      = (matchedPairs ns cs (pk0 :: pkr)).countP fun nc =>
          decide (keyOf (pk0 :: pkr) nc.1 = k)
            && unchFilter pk0 (some nc.1, some nc.2) := by
  rw [countP_fullOuterJoin]
  have hT1 : (ns.countP fun n =>
      (decide ((pk0 :: pkr).map (pairGet none) = k) && unchFilter pk0 (some n, none))
        && !(cs.any fun c => keysMatch (pk0 :: pkr) n c)) = 0 := by
    rw [List.countP_eq_zero]
    intro n _
    simp [unchFilter]
  have hT3 : (cs.countP fun c =>
      (decide ((pk0 :: pkr).map (pairGet (some c)) = k) && unchFilter pk0 (none, some c))
        && !(ns.any fun n => keysMatch (pk0 :: pkr) n c)) = 0 := by
    rw [List.countP_eq_zero]
    intro c _
    simp [unchFilter]
  rw [hT1, hT3]
  simp only [Nat.zero_add, Nat.add_zero]
  refine List.countP_congr ?_
  intro nc hnc
  obtain ⟨_, _, h3⟩ := mem_matchedPairs.mp hnc
  rw [map_pairGet_some, ← keysMatch_keyOf h3]

theorem final_count_shape {new_data current_data : DF} {pk0 : String} {pkr : List String}
    (k : List Val)
    (hsubn : ∀ x ∈ (pk0 :: pkr), x ∈ new_data.cols)
    (hsubc : ∀ x ∈ (pk0 :: pkr), x ∈ current_data.cols)
    (hdefc : keysDefinedB (pk0 :: pkr) current_data.rows = true) :
    ((final_df new_data current_data (pk0 :: pkr) pk0).countP fun r =>
        decide (keyOf (pk0 :: pkr) r = k))
      = new_data.rows.countP (fun n => decide (keyOf (pk0 :: pkr) n = k)
            && !(current_data.rows.any fun c => keysMatch (pk0 :: pkr) n c))
      + (matchedPairs new_data.rows current_data.rows (pk0 :: pkr)).countP
          (fun nc => decide (keyOf (pk0 :: pkr) nc.1 = k)
            && updFilter pk0 (some nc.1, some nc.2))
      + (matchedPairs new_data.rows current_data.rows (pk0 :: pkr)).countP
          (fun nc => decide (keyOf (pk0 :: pkr) nc.1 = k)
            && unchFilter pk0 (some nc.1, some nc.2)) := by
  rw [countP_final]
  have hq1 : ∀ p : JRow,
      keyOf (pk0 :: pkr) (selectVals (pairGet p.1) new_data.cols)
        = (pk0 :: pkr).map (pairGet p.1) :=
    fun p => keyOf_proj _ _ _ hsubn
  have hq2 : ∀ p : JRow,
      keyOf (pk0 :: pkr) (alignTo new_data.cols
          (selectVals (pairGet p.1) (updCols (pk0 :: pkr) new_data.cols)))
        = (pk0 :: pkr).map (pairGet p.1) :=
    fun p => keyOf_align_proj _ _ _ _ hsubn (fun x hx => mem_updCols_of_pk hx)
  have hq3 : ∀ p : JRow,
      keyOf (pk0 :: pkr) (alignTo new_data.cols
          (selectVals (pairGet p.2) current_data.cols))
        = (pk0 :: pkr).map (pairGet p.2) :=
    fun p => keyOf_align_proj _ _ _ _ hsubn hsubc
  simp only [hq1, hq2, hq3]
  unfold joined_df
  rw [bucketA_count k hdefc, bucketB_count k, bucketC_count k]

theorem final_count_key_unmatched {new_data current_data : DF} {pk0 : String}
    {pkr : List String} {n0 : Row}
    (hsubn : ∀ x ∈ (pk0 :: pkr), x ∈ new_data.cols)
    (hsubc : ∀ x ∈ (pk0 :: pkr), x ∈ current_data.cols)
    (hdefc : keysDefinedB (pk0 :: pkr) current_data.rows = true)
    (hdn : keysDistinct (pk0 :: pkr) new_data.rows = true)
    (hn0 : n0 ∈ new_data.rows)
    (habs : (current_data.rows.any fun c => keysMatch (pk0 :: pkr) n0 c) = false) :
    ((final_df new_data current_data (pk0 :: pkr) pk0).countP fun r =>
        decide (keyOf (pk0 :: pkr) r = keyOf (pk0 :: pkr) n0)) = 1 := by
  rw [final_count_shape (keyOf (pk0 :: pkr) n0) hsubn hsubc hdefc,
    countP_key_localized _ hdn hn0,
    countP_matchedPairs_key_zero _ hdn hn0 habs,
    countP_matchedPairs_key_zero _ hdn hn0 habs]
  simp [habs]

theorem final_count_key_of_match {new_data current_data : DF} {pk0 : String}
    {pkr : List String} {n0 c0 : Row}
    (hsubn : ∀ x ∈ (pk0 :: pkr), x ∈ new_data.cols)
    (hsubc : ∀ x ∈ (pk0 :: pkr), x ∈ current_data.cols)
    (hdefc : keysDefinedB (pk0 :: pkr) current_data.rows = true)
    (hdn : keysDistinct (pk0 :: pkr) new_data.rows = true)
    (hdc : keysDistinct (pk0 :: pkr) current_data.rows = true)
    (hn0 : n0 ∈ new_data.rows) (hc0 : c0 ∈ current_data.rows)
    (hm : keysMatch (pk0 :: pkr) n0 c0 = true) :
    ((final_df new_data current_data (pk0 :: pkr) pk0).countP fun r =>
        decide (keyOf (pk0 :: pkr) r = keyOf (pk0 :: pkr) n0))
      = (if updFilter pk0 (some n0, some c0) = true then 1 else 0)
        + (if unchFilter pk0 (some n0, some c0) = true then 1 else 0) := by
  rw [final_count_shape (keyOf (pk0 :: pkr) n0) hsubn hsubc hdefc,
    countP_key_localized _ hdn hn0,
    countP_matchedPairs_key _ hdn hdc hn0 hc0 hm,
    countP_matchedPairs_key _ hdn hdc hn0 hc0 hm]
  have hany : (current_data.rows.any fun c => keysMatch (pk0 :: pkr) n0 c) = true :=
    List.any_eq_true.mpr ⟨c0, hc0, hm⟩
  simp [hany]

theorem final_count_key_absent {new_data current_data : DF} {pk0 : String}
    {pkr : List String} {k : List Val}
    (hsubn : ∀ x ∈ (pk0 :: pkr), x ∈ new_data.cols)
    (hsubc : ∀ x ∈ (pk0 :: pkr), x ∈ current_data.cols)
    (hdefc : keysDefinedB (pk0 :: pkr) current_data.rows = true)
    (hnk : ∀ n ∈ new_data.rows, keyOf (pk0 :: pkr) n ≠ k) :
    ((final_df new_data current_data (pk0 :: pkr) pk0).countP fun r =>
        decide (keyOf (pk0 :: pkr) r = k)) = 0 := by
  rw [final_count_shape k hsubn hsubc hdefc,
    countP_matchedPairs_notkey _ hnk, countP_matchedPairs_notkey _ hnk]
  have hz : (new_data.rows.countP fun n => decide (keyOf (pk0 :: pkr) n = k)
      && !(current_data.rows.any fun c => keysMatch (pk0 :: pkr) n c)) = 0 := by
    rw [List.countP_eq_zero]
    intro n hn
    simp only [Bool.and_eq_true, decide_eq_true_eq, not_and]
    intro hk
    exact absurd hk (hnk n hn)
  rw [hz]

theorem changedCond_closed_of_pair {ns cs : List Row} {n c : Row}
    (hVn : comparedDefinedB ns = true) (hVc : comparedDefinedB cs = true)
    (h1 : n ∈ ns) (h2 : c ∈ cs) :
    changedCond (some n, some c) = TV.tt ∨ changedCond (some n, some c) = TV.ff := by
  refine changedCond_closed ?_ ?_ ?_ ?_
  · exact comparedDefinedB_rowGet hVn n h1 "value_col" (by simp [comparedCols])
  · exact comparedDefinedB_rowGet hVc c h2 "value_col" (by simp [comparedCols])
  · exact comparedDefinedB_rowGet hVn n h1 "another_col" (by simp [comparedCols])
  · exact comparedDefinedB_rowGet hVc c h2 "another_col" (by simp [comparedCols])

theorem changedCond_eq_nn {n0 c0 : Row}
    (hx : neqTV (rowGet n0 "value_col") (rowGet c0 "value_col") ≠ TV.tt)
    (hy : neqTV (rowGet n0 "another_col") (rowGet c0 "another_col") ≠ TV.tt)
    (hz : neqTV (rowGet n0 "value_col") (rowGet c0 "value_col") = TV.nn
        ∨ neqTV (rowGet n0 "another_col") (rowGet c0 "another_col") = TV.nn) :
    changedCond (some n0, some c0) = TV.nn := by
  unfold changedCond
  simp only [pairGet_some]
  cases hxv : neqTV (rowGet n0 "value_col") (rowGet c0 "value_col") <;>
    cases hyv : neqTV (rowGet n0 "another_col") (rowGet c0 "another_col") <;>
    simp_all [orTV]

theorem keysDistinct_of_count {pks : List String} :
    ∀ {l : List Row},
      (∀ r ∈ l, (l.countP fun x => decide (keyOf pks x = keyOf pks r)) = 1) →
      keysDistinct pks l = true := by
  intro l
  induction l with
  | nil => intro _; rfl
  | cons r0 t ih =>
    intro hc
    have h0 := hc r0 (List.mem_cons_self r0 t)
    have hpr : decide (keyOf pks r0 = keyOf pks r0) = true := by simp
    rw [List.countP_cons, hpr, if_pos rfl] at h0
    have h0z : (t.countP fun x => decide (keyOf pks x = keyOf pks r0)) = 0 := by omega
    unfold keysDistinct
    rw [Bool.and_eq_true]
    constructor
    · rw [List.all_eq_true]
      intro x hx
      have hxz := List.countP_eq_zero.mp h0z x hx
      simp only [decide_eq_true_eq] at hxz
      simp [hxz]
    · apply ih
      intro r hr
      have hcr := hc r (List.mem_cons_of_mem r0 hr)
      rw [List.countP_cons] at hcr
      have hne : ¬(keyOf pks r0 = keyOf pks r) := by
        have hxz := List.countP_eq_zero.mp h0z r hr
        simp only [decide_eq_true_eq] at hxz
        exact fun hcon => hxz hcon.symm
      simp only [decide_eq_true_eq, if_neg hne, Nat.add_zero] at hcr
      exact hcr

theorem final_length_law {new_data current_data : DF} {pk0 : String} {pkr : List String}
    (hdefn : keysDefinedB (pk0 :: pkr) new_data.rows = true)
    (hdefc : keysDefinedB (pk0 :: pkr) current_data.rows = true)
    (hdc : keysDistinct (pk0 :: pkr) current_data.rows = true)
    (hVn : comparedDefinedB new_data.rows = true)
    (hVc : comparedDefinedB current_data.rows = true) :
    (final_df new_data current_data (pk0 :: pkr) pk0).length
      = newOnlyCount new_data current_data (pk0 :: pkr)
        + overlapCount new_data current_data (pk0 :: pkr) := by
  rw [length_final]
  have hpk0 : pk0 ∈ (pk0 :: pkr) := List.mem_cons_self pk0 pkr
  have hA : (joined_df new_data current_data (pk0 :: pkr)).countP (newFilter pk0)
      = newOnlyCount new_data current_data (pk0 :: pkr) := by
    unfold joined_df
    rw [countP_fullOuterJoin]
    have hT2 : ((matchedPairs new_data.rows current_data.rows (pk0 :: pkr)).countP
        fun nc => newFilter pk0 (some nc.1, some nc.2)) = 0 := by
      rw [List.countP_eq_zero]
      intro nc hnc
      obtain ⟨_, h2, _⟩ := mem_matchedPairs.mp hnc
      have hs := keysDefinedB_rowGet hdefc nc.2 h2 pk0 hpk0
      simp [newFilter, isNone_eq_false hs]
    have hT3 : (current_data.rows.countP fun c =>
        newFilter pk0 (none, some c)
          && !(new_data.rows.any fun n => keysMatch (pk0 :: pkr) n c)) = 0 := by
      rw [List.countP_eq_zero]
      intro c hc
      have hs := keysDefinedB_rowGet hdefc c hc pk0 hpk0
      simp [newFilter, isNone_eq_false hs]
    rw [hT2, hT3]
    simp only [Nat.add_zero]
    unfold newOnlyCount
    rw [← List.countP_eq_length_filter]
    refine List.countP_congr ?_
    intro n _
    simp [newFilter]
  have hBu : (joined_df new_data current_data (pk0 :: pkr)).countP (updFilter pk0)
      = (matchedPairs new_data.rows current_data.rows (pk0 :: pkr)).countP
          fun nc => updFilter pk0 (some nc.1, some nc.2) := by
    unfold joined_df
    rw [countP_fullOuterJoin]
    have hT1 : (new_data.rows.countP fun n =>
        updFilter pk0 (some n, none)
          && !(current_data.rows.any fun c => keysMatch (pk0 :: pkr) n c)) = 0 := by
      rw [List.countP_eq_zero]
      intro n _
      simp [updFilter]
    have hT3 : (current_data.rows.countP fun c =>
        updFilter pk0 (none, some c)
          && !(new_data.rows.any fun n => keysMatch (pk0 :: pkr) n c)) = 0 := by
      rw [List.countP_eq_zero]
      intro c _
      simp [updFilter]
    rw [hT1, hT3]
    simp only [Nat.zero_add, Nat.add_zero]
  have hBn : (joined_df new_data current_data (pk0 :: pkr)).countP (unchFilter pk0)
      = (matchedPairs new_data.rows current_data.rows (pk0 :: pkr)).countP
          fun nc => unchFilter pk0 (some nc.1, some nc.2) := by
    unfold joined_df
    rw [countP_fullOuterJoin]
    have hT1 : (new_data.rows.countP fun n =>
        unchFilter pk0 (some n, none)
          && !(current_data.rows.any fun c => keysMatch (pk0 :: pkr) n c)) = 0 := by
      rw [List.countP_eq_zero]
      intro n _
      simp [unchFilter]
    have hT3 : (current_data.rows.countP fun c =>
        unchFilter pk0 (none, some c)
          && !(new_data.rows.any fun n => keysMatch (pk0 :: pkr) n c)) = 0 := by
      rw [List.countP_eq_zero]
      intro c _
      simp [unchFilter]
    rw [hT1, hT3]
    simp only [Nat.zero_add, Nat.add_zero]
  have hsplit : (matchedPairs new_data.rows current_data.rows (pk0 :: pkr)).countP
        (fun nc => updFilter pk0 (some nc.1, some nc.2))
      + (matchedPairs new_data.rows current_data.rows (pk0 :: pkr)).countP
        (fun nc => unchFilter pk0 (some nc.1, some nc.2))
      = (matchedPairs new_data.rows current_data.rows (pk0 :: pkr)).length := by
    have hcong : ((matchedPairs new_data.rows current_data.rows (pk0 :: pkr)).countP
        fun nc => unchFilter pk0 (some nc.1, some nc.2))
        = (matchedPairs new_data.rows current_data.rows (pk0 :: pkr)).countP
          fun nc => !(updFilter pk0 (some nc.1, some nc.2)) := by
      refine List.countP_congr ?_
      intro nc hnc
      obtain ⟨h1, h2, h3⟩ := mem_matchedPairs.mp hnc
      have hs1 := keysDefinedB_rowGet hdefn nc.1 h1 pk0 hpk0
      have hs2 := keysDefinedB_rowGet hdefc nc.2 h2 pk0 hpk0
      rcases changedCond_closed_of_pair hVn hVc h1 h2 with hcc | hcc <;>
        simp [updFilter, unchFilter, hcc, hs1, hs2, notTV]
    rw [hcong]
    have := List.length_eq_countP_add_countP
      (fun nc : Row × Row => updFilter pk0 (some nc.1, some nc.2))
      (matchedPairs new_data.rows current_data.rows (pk0 :: pkr))
    rw [this]
    have hsame : ((matchedPairs new_data.rows current_data.rows (pk0 :: pkr)).countP
        fun nc => !(updFilter pk0 (some nc.1, some nc.2)))
        = (matchedPairs new_data.rows current_data.rows (pk0 :: pkr)).countP
          fun nc => decide (¬(updFilter pk0 (some nc.1, some nc.2)) = true) := by
      refine List.countP_congr ?_
      intro nc _
      cases h : updFilter pk0 (some nc.1, some nc.2) <;> simp [h]
    rw [hsame]
  rw [hA, hBu, hBn]
  have hover : (matchedPairs new_data.rows current_data.rows (pk0 :: pkr)).length
      = overlapCount new_data current_data (pk0 :: pkr) := by
    rw [length_matchedPairs hdc]
    unfold overlapCount
    rw [← List.countP_eq_length_filter]
  omega

/-! ### Membership characterization of the join and the reconciled rows -/

theorem selectVals_pairGet_some (n : Row) (cols : List String) :
    selectVals (pairGet (some n)) cols = selectVals (rowGet n) cols := rfl

theorem rowGet_selectVals_mem {cols : List String} {x : String}
    (get : String → Val) (hx : x ∈ cols) :
    rowGet (selectVals get cols) x = get x := by
  rw [rowGet_selectVals, if_pos hx]

theorem rowGet_align_select {cols1 cols2 : List String} {x : String}
    (get : String → Val) (h1 : x ∈ cols1) (h2 : x ∈ cols2) :
    rowGet (alignTo cols1 (selectVals get cols2)) x = get x := by
  rw [rowGet_alignTo, if_pos h1, rowGet_selectVals, if_pos h2]

theorem keyOf_select_rowGet {pks cols : List String} {n : Row}
    (hsub : ∀ k ∈ pks, k ∈ cols) :
    keyOf pks (selectVals (rowGet n) cols) = keyOf pks n := by
  rw [keyOf_selectVals pks _ cols hsub]
  rfl

theorem keyOf_align_select_rowGet {pks cols1 cols2 : List String} {n : Row}
    (hsub1 : ∀ k ∈ pks, k ∈ cols1) (hsub2 : ∀ k ∈ pks, k ∈ cols2) :
    keyOf pks (alignTo cols1 (selectVals (rowGet n) cols2)) = keyOf pks n := by
  rw [keyOf_alignTo _ _ _ hsub1, keyOf_select_rowGet hsub2]

theorem mem_joinLeft {p : JRow} :
    ∀ {ns cs : List Row} {pks : List String}, p ∈ joinLeft ns cs pks →
      (∃ n, n ∈ ns ∧ (cs.any fun c => keysMatch pks n c) = false ∧ p = (some n, none))
      ∨ ∃ n c, n ∈ ns ∧ c ∈ cs ∧ keysMatch pks n c = true ∧ p = (some n, some c) := by
  intro ns
  induction ns with
  | nil => intro cs pks hp; cases hp
  | cons n ns ih =>
    intro cs pks hp
    rw [joinLeft] at hp
    rcases List.mem_append.mp hp with hp | hp
    · split at hp
      next hms =>
        have hpp := List.mem_singleton.mp hp
        exact Or.inl ⟨n, List.mem_cons_self n ns, matchesOf_eq_nil.mp hms, hpp⟩
      next ms2 hms =>
        rcases List.mem_map.mp hp with ⟨c, hc, hceq⟩
        have hcf := List.mem_filter.mp
          (show c ∈ cs.filter (fun c => keysMatch pks n c) from hc)
        exact Or.inr ⟨n, c, List.mem_cons_self n ns, hcf.1, hcf.2, hceq.symm⟩
    · rcases ih hp with ⟨n2, h1, h2, h3⟩ | ⟨n2, c2, h1, h2, h3, h4⟩
      · exact Or.inl ⟨n2, List.mem_cons_of_mem n h1, h2, h3⟩
      · exact Or.inr ⟨n2, c2, List.mem_cons_of_mem n h1, h2, h3, h4⟩

theorem mem_fullOuterJoin {p : JRow} {ns cs : List Row} {pks : List String}
    (hp : p ∈ fullOuterJoin ns cs pks) :
    (∃ n, n ∈ ns ∧ (cs.any fun c => keysMatch pks n c) = false ∧ p = (some n, none))
    ∨ (∃ n c, n ∈ ns ∧ c ∈ cs ∧ keysMatch pks n c = true ∧ p = (some n, some c))
    ∨ ∃ c, c ∈ cs ∧ (ns.any fun n => keysMatch pks n c) = false ∧ p = (none, some c) := by
  unfold fullOuterJoin at hp
  rcases List.mem_append.mp hp with hp | hp
  · rcases mem_joinLeft hp with h | h
    · exact Or.inl h
    · exact Or.inr (Or.inl h)
  · rcases List.mem_map.mp hp with ⟨c, hc, hceq⟩
    have hcf := List.mem_filter.mp hc
    refine Or.inr (Or.inr ⟨c, hcf.1, ?_, hceq.symm⟩)
    have := hcf.2
    cases h2 : ns.any fun n => keysMatch pks n c
    · rfl
    · rw [h2] at this; cases this

theorem mem_final {r : Row} {new_data current_data : DF} {pks : List String} {pk0 : String}
    (hr : r ∈ final_df new_data current_data pks pk0) :
    (∃ p, p ∈ joined_df new_data current_data pks ∧ newFilter pk0 p = true
        ∧ r = selectVals (pairGet p.1) new_data.cols)
    ∨ (∃ p, p ∈ joined_df new_data current_data pks ∧ updFilter pk0 p = true
        ∧ r = alignTo new_data.cols (selectVals (pairGet p.1) (updCols pks new_data.cols)))
    ∨ ∃ p, p ∈ joined_df new_data current_data pks ∧ unchFilter pk0 p = true
        ∧ r = alignTo new_data.cols (selectVals (pairGet p.2) current_data.cols) := by
  unfold final_df new_rows updated_rows unchanged_rows at hr
  rcases List.mem_append.mp hr with hr | hr
  · rcases List.mem_append.mp hr with hr | hr
    · rcases List.mem_map.mp hr with ⟨p, hp, hpe⟩
      have hpf := List.mem_filter.mp hp
      exact Or.inl ⟨p, hpf.1, hpf.2, hpe.symm⟩
    · rcases List.mem_map.mp hr with ⟨r2, hr2, hre⟩
      rcases List.mem_map.mp hr2 with ⟨p, hp, hpe⟩
      have hpf := List.mem_filter.mp hp
      exact Or.inr (Or.inl ⟨p, hpf.1, hpf.2, by rw [← hre, ← hpe]⟩)
  · rcases List.mem_map.mp hr with ⟨r2, hr2, hre⟩
    rcases List.mem_map.mp hr2 with ⟨p, hp, hpe⟩
    have hpf := List.mem_filter.mp hp
    exact Or.inr (Or.inr ⟨p, hpf.1, hpf.2, by rw [← hre, ← hpe]⟩)

theorem final_row_cases {new_data current_data : DF} {pk0 : String} {pkr : List String}
    {r : Row}
    (hdefc : keysDefinedB (pk0 :: pkr) current_data.rows = true)
    (hr : r ∈ final_df new_data current_data (pk0 :: pkr) pk0) :
    (∃ n, n ∈ new_data.rows
        ∧ (current_data.rows.any fun c => keysMatch (pk0 :: pkr) n c) = false
        ∧ r = selectVals (rowGet n) new_data.cols)
    ∨ (∃ n c, n ∈ new_data.rows ∧ c ∈ current_data.rows
        ∧ keysMatch (pk0 :: pkr) n c = true
        ∧ updFilter pk0 (some n, some c) = true
        ∧ r = alignTo new_data.cols
            (selectVals (rowGet n) (updCols (pk0 :: pkr) new_data.cols)))
    ∨ ∃ n c, n ∈ new_data.rows ∧ c ∈ current_data.rows
        ∧ keysMatch (pk0 :: pkr) n c = true
        ∧ unchFilter pk0 (some n, some c) = true
        ∧ r = alignTo new_data.cols (selectVals (rowGet c) current_data.cols) := by
  have hpk0 : pk0 ∈ (pk0 :: pkr) := List.mem_cons_self pk0 pkr
  rcases mem_final hr with ⟨p, hpJ, hpf, hpe⟩ | ⟨p, hpJ, hpf, hpe⟩ | ⟨p, hpJ, hpf, hpe⟩
  · rcases mem_fullOuterJoin hpJ with ⟨n, h1, h2, h3⟩ | ⟨n, c, h1, h2, h3, h4⟩ | ⟨c, h1, _, h3⟩
    · subst h3
      exact Or.inl ⟨n, h1, h2, hpe⟩
    · subst h4
      have hs := keysDefinedB_rowGet hdefc c h2 pk0 hpk0
      have hpf2 : (rowGet c pk0).isNone = true := hpf
      rw [isNone_eq_false hs] at hpf2
      cases hpf2
    · subst h3
      have hs := keysDefinedB_rowGet hdefc c h1 pk0 hpk0
      have hpf2 : (rowGet c pk0).isNone = true := hpf
      rw [isNone_eq_false hs] at hpf2
      cases hpf2
  · rcases mem_fullOuterJoin hpJ with ⟨n, h1, h2, h3⟩ | ⟨n, c, h1, h2, h3, h4⟩ | ⟨c, h1, h2, h3⟩
    · subst h3
      simp [updFilter] at hpf
    · subst h4
      exact Or.inr (Or.inl ⟨n, c, h1, h2, h3, hpf, hpe⟩)
    · subst h3
      simp [updFilter] at hpf
  · rcases mem_fullOuterJoin hpJ with ⟨n, h1, h2, h3⟩ | ⟨n, c, h1, h2, h3, h4⟩ | ⟨c, h1, h2, h3⟩
    · subst h3
      simp [unchFilter] at hpf
    · subst h4
      exact Or.inr (Or.inr ⟨n, c, h1, h2, h3, hpf, hpe⟩)
    · subst h3
      simp [unchFilter] at hpf

/-! ### Claim theorems -/

/-- Claim C9: when `primary_keys` is empty the operation fails before any
write to the destination (in the source, `primary_keys[0]` raises
`IndexError`, the failure class the design's error taxonomy labels
`AmbiguousPrimaryKey`): the result is the error, the destination table is
untouched, and the error propagates unrecovered to the caller (the source
installs no exception handler). -/
theorem C9_empty_primary_keys (current_data new_data : DF) (u t : String)
    (props : List (String × String)) (dest : List Row) :
    update_and_load_to_aurora current_data new_data [] u t props
      = Except.error UpsertErr.ambiguousPrimaryKey
    ∧ runUpsertOnDest dest current_data new_data [] u t props = dest :=
  ⟨rfl, rfl⟩

/-- Claim C6 counterexample: on the spec §8 inputs exactly as written
(rows with only `id` and `value_col`), the operation does not produce the
claimed reconciled dataset: the hard-coded filter references
`another_col`, which is absent from both dataframes, so Spark's eager
analysis fails (`SchemaMismatch`) before anything is produced. -/
theorem C6_cex :
    update_and_load_to_aurora exCurrent6 exNew6 ["id"] "url" "tbl" []
      = Except.error UpsertErr.schemaMismatch := by
  rfl

/-- Claim C6 (amended): on the §8 inputs extended with the second
hard-coded compared column `another_col` (equal everywhere), the
operation produces exactly the claimed reconciled dataset — id 1 dropped,
id 2 updated with New's values, id 3 inserted (row order irrelevant per
the spec). -/
theorem C6_example :
    (update_and_load_to_aurora exCurrent6x exNew6x ["id"] "url" "tbl" []).map Prod.fst
      = Except.ok
          [[("id", some (Cell.int 3)), ("value_col", some (Cell.str "c")),
            ("another_col", some (Cell.str "x"))],
           [("id", some (Cell.int 2)), ("value_col", some (Cell.str "B")),
            ("another_col", some (Cell.str "x"))]] := by
  rfl

/-- Claim C1 counterexample: with unique, non-NULL primary keys but a
NULL compared column (`value_col` NULL on both sides, `another_col`
equal), the overlap row of key 1 satisfies neither the Updated nor the
Unchanged filter, so the reconciled dataset is empty while the row-count
law demands `0 + 1 = 1` rows. -/
theorem C1_cex :
    (update_and_load_to_aurora exCurrentNull exNewNull ["id"] "url" "tbl" []).map Prod.fst
      = Except.ok []
    ∧ newOnlyCount exNewNull exCurrentNull ["id"]
        + overlapCount exNewNull exCurrentNull ["id"] = 1 :=
  ⟨rfl, rfl⟩

/-- Claim C1 (amended): for inputs satisfying the spec's standing
preconditions (schemas contain the key and compared columns and agree,
keys unique and non-NULL) and whose compared columns are non-NULL in both
inputs, the reconciled dataset produced before the write satisfies the
row-count law `|reconciled| = |New minus Current-keys-overlap| +
|overlap|`: no key is duplicated or dropped across the three buckets. -/
theorem C1_row_count_law (current_data new_data : DF) (pk0 : String)
    (pkr : List String) (u t : String) (props : List (String × String))
    (h : specAssumptions new_data current_data (pk0 :: pkr) = true)
    (hVn : comparedDefinedB new_data.rows = true)
    (hVc : comparedDefinedB current_data.rows = true) :
    (update_and_load_to_aurora current_data new_data (pk0 :: pkr) u t props).map Prod.fst
      = Except.ok (final_df new_data current_data (pk0 :: pkr) pk0)
    ∧ (final_df new_data current_data (pk0 :: pkr) pk0).length
        = newOnlyCount new_data current_data (pk0 :: pkr)
          + overlapCount new_data current_data (pk0 :: pkr) := by
  obtain ⟨h1, h2, h3, h4, h5, h6, h7⟩ := specAssumptions_parts h
  exact ⟨by rw [update_and_load_ok h]; rfl, final_length_law h4 h5 h7 hVn hVc⟩

/-- Witness for the amended claim C1 at concrete data with an insert, an
update, a delete and an unchanged row. -/
theorem C1_row_count_law_witness :
    specAssumptions wNew wCurrent ["id"] = true
    ∧ comparedDefinedB wNew.rows = true
    ∧ comparedDefinedB wCurrent.rows = true
    ∧ ((update_and_load_to_aurora wCurrent wNew ["id"] "url" "tbl" []).map Prod.fst
        = Except.ok (final_df wNew wCurrent ["id"] "id")
      ∧ (final_df wNew wCurrent ["id"] "id").length
          = newOnlyCount wNew wCurrent ["id"] + overlapCount wNew wCurrent ["id"]) :=
  ⟨by decide, by decide, by decide,
    C1_row_count_law wCurrent wNew "id" [] "url" "tbl" []
      (by decide) (by decide) (by decide)⟩

/-- Claim C3: for every key present in Current but not in New (under the
standing preconditions), the reconciled dataset contains no row for that
key: rows whose key exists only in Current are silently dropped
(deletion-by-omission). -/
theorem C3_deleted_key (current_data new_data : DF) (pk0 : String)
    (pkr : List String) (u t : String) (props : List (String × String)) (c0 : Row)
    (h : specAssumptions new_data current_data (pk0 :: pkr) = true)
    (hc0 : c0 ∈ current_data.rows)
    (habs : (new_data.rows.any fun n => keysMatch (pk0 :: pkr) n c0) = false) :
    (update_and_load_to_aurora current_data new_data (pk0 :: pkr) u t props).map Prod.fst
      = Except.ok (final_df new_data current_data (pk0 :: pkr) pk0)
    ∧ ((final_df new_data current_data (pk0 :: pkr) pk0).countP fun r =>
        decide (keyOf (pk0 :: pkr) r = keyOf (pk0 :: pkr) c0)) = 0 := by
  obtain ⟨h1, h2, h3, h4, h5, h6, h7⟩ := specAssumptions_parts h
  have hsubn := all_contains_sub_left h1
  have hsubc := all_contains_sub_right h1
  refine ⟨by rw [update_and_load_ok h]; rfl, ?_⟩
  refine final_count_key_absent hsubn hsubc h5 ?_
  intro n hn hkeq
  have hmm : keysMatch (pk0 :: pkr) n c0 = true :=
    keysMatch_of_keyOf (fun k hk => keysDefinedB_rowGet h4 n hn k hk) hkeq.symm
  have := List.any_eq_false.mp habs n hn
  exact this hmm

/-- Witness for claim C3 at the concrete data: key 1 exists only in
Current and has no row in the reconciled dataset. -/
theorem C3_deleted_key_witness :
    specAssumptions wNew wCurrent ["id"] = true
    ∧ rowA ∈ wCurrent.rows
    ∧ (wNew.rows.any fun n => keysMatch ["id"] n rowA) = false
    ∧ ((update_and_load_to_aurora wCurrent wNew ["id"] "url" "tbl" []).map Prod.fst
        = Except.ok (final_df wNew wCurrent ["id"] "id")
      ∧ ((final_df wNew wCurrent ["id"] "id").countP fun r =>
          decide (keyOf ["id"] r = keyOf ["id"] rowA)) = 0) :=
  ⟨by decide, by decide, by decide,
    C3_deleted_key wCurrent wNew "id" [] "url" "tbl" [] rowA
      (by decide) (by decide) (by decide)⟩

/-- Claim C2: for every key present in New but not in Current (under the
standing preconditions), the reconciled dataset produced before the write
contains exactly one row for that key, and that row carries New's values
for every column. -/
theorem C2_inserted_key (current_data new_data : DF) (pk0 : String)
    (pkr : List String) (u t : String) (props : List (String × String)) (n0 : Row)
    (h : specAssumptions new_data current_data (pk0 :: pkr) = true)
    (hn0 : n0 ∈ new_data.rows)
    (habs : (current_data.rows.any fun c => keysMatch (pk0 :: pkr) n0 c) = false) :
    (update_and_load_to_aurora current_data new_data (pk0 :: pkr) u t props).map Prod.fst
      = Except.ok (final_df new_data current_data (pk0 :: pkr) pk0)
    ∧ ((final_df new_data current_data (pk0 :: pkr) pk0).countP fun r =>
        decide (keyOf (pk0 :: pkr) r = keyOf (pk0 :: pkr) n0)) = 1
    ∧ ∀ r ∈ final_df new_data current_data (pk0 :: pkr) pk0,
        keyOf (pk0 :: pkr) r = keyOf (pk0 :: pkr) n0 →
        ∀ x ∈ new_data.cols, rowGet r x = rowGet n0 x := by
  obtain ⟨h1, h2, h3, h4, h5, h6, h7⟩ := specAssumptions_parts h
  have hsubn := all_contains_sub_left h1
  have hsubc := all_contains_sub_right h1
  refine ⟨by rw [update_and_load_ok h]; rfl,
    final_count_key_unmatched hsubn hsubc h5 h6 hn0 habs, ?_⟩
  intro r hr hkey x hx
  rcases final_row_cases h5 hr with ⟨n, hn, hnm, hre⟩
    | ⟨n, c, hn, hc, hm, hupd, hre⟩ | ⟨n, c, hn, hc, hm, hunch, hre⟩
  · have hkn : keyOf (pk0 :: pkr) n = keyOf (pk0 :: pkr) n0 := by
      rw [hre, keyOf_select_rowGet hsubn] at hkey
      exact hkey
    have hne : n = n0 := keysDistinct_inj h6 n hn n0 hn0 hkn
    subst hne
    rw [hre, rowGet_selectVals_mem _ hx]
  · have hkn : keyOf (pk0 :: pkr) n = keyOf (pk0 :: pkr) n0 := by
      rw [hre, keyOf_align_select_rowGet hsubn (fun k hk => mem_updCols_of_pk hk)] at hkey
      exact hkey
    have hne : n = n0 := keysDistinct_inj h6 n hn n0 hn0 hkn
    subst hne
    exact absurd (List.any_eq_true.mpr ⟨c, hc, hm⟩) (by simp [habs])
  · have hkc : keyOf (pk0 :: pkr) c = keyOf (pk0 :: pkr) n0 := by
      rw [hre, keyOf_align_select_rowGet hsubn hsubc] at hkey
      exact hkey
    have hkn : keyOf (pk0 :: pkr) n = keyOf (pk0 :: pkr) n0 :=
      (keysMatch_keyOf hm).trans hkc
    have hne : n = n0 := keysDistinct_inj h6 n hn n0 hn0 hkn
    subst hne
    exact absurd (List.any_eq_true.mpr ⟨c, hc, hm⟩) (by simp [habs])

/-- Witness for claim C2 at the concrete data: key 3 exists only in New
and appears exactly once, with New's values. -/
theorem C2_inserted_key_witness :
    specAssumptions wNew wCurrent ["id"] = true
    ∧ rowC ∈ wNew.rows
    ∧ (wCurrent.rows.any fun c => keysMatch ["id"] rowC c) = false
    ∧ ((update_and_load_to_aurora wCurrent wNew ["id"] "url" "tbl" []).map Prod.fst
        = Except.ok (final_df wNew wCurrent ["id"] "id")
      ∧ ((final_df wNew wCurrent ["id"] "id").countP fun r =>
          decide (keyOf ["id"] r = keyOf ["id"] rowC)) = 1
      ∧ ∀ r ∈ final_df wNew wCurrent ["id"] "id",
          keyOf ["id"] r = keyOf ["id"] rowC →
          ∀ x ∈ wNew.cols, rowGet r x = rowGet rowC x) :=
  ⟨by decide, by decide, by decide,
    C2_inserted_key wCurrent wNew "id" [] "url" "tbl" [] rowC
      (by decide) (by decide) (by decide)⟩

/-- Claim C4: for every key present in both inputs whose rows differ in a
compared non-key column with non-NULL values on both sides (under the
standing preconditions), the reconciled dataset has exactly one row for
that key and it carries New's values for the key columns and for all of
New's non-key columns. -/
theorem C4_updated_key (current_data new_data : DF) (pk0 : String)
    (pkr : List String) (u t : String) (props : List (String × String)) (n0 c0 : Row)
    (h : specAssumptions new_data current_data (pk0 :: pkr) = true)
    (hn0 : n0 ∈ new_data.rows) (hc0 : c0 ∈ current_data.rows)
    (hm : keysMatch (pk0 :: pkr) n0 c0 = true)
    (hdiff : neqTV (rowGet n0 "value_col") (rowGet c0 "value_col") = TV.tt
        ∨ neqTV (rowGet n0 "another_col") (rowGet c0 "another_col") = TV.tt) :
    (update_and_load_to_aurora current_data new_data (pk0 :: pkr) u t props).map Prod.fst
      = Except.ok (final_df new_data current_data (pk0 :: pkr) pk0)
    ∧ ((final_df new_data current_data (pk0 :: pkr) pk0).countP fun r =>
        decide (keyOf (pk0 :: pkr) r = keyOf (pk0 :: pkr) n0)) = 1
    ∧ ∀ r ∈ final_df new_data current_data (pk0 :: pkr) pk0,
        keyOf (pk0 :: pkr) r = keyOf (pk0 :: pkr) n0 →
        ∀ x ∈ new_data.cols, rowGet r x = rowGet n0 x := by
  obtain ⟨h1, h2, h3, h4, h5, h6, h7⟩ := specAssumptions_parts h
  have hsubn := all_contains_sub_left h1
  have hsubc := all_contains_sub_right h1
  have hpk0 : pk0 ∈ (pk0 :: pkr) := List.mem_cons_self pk0 pkr
  have hcc : changedCond (some n0, some c0) = TV.tt := by
    unfold changedCond
    simp only [pairGet_some]
    rw [orTV_eq_tt]
    exact hdiff
  have hs1 := keysDefinedB_rowGet h4 n0 hn0 pk0 hpk0
  have hs2 := keysDefinedB_rowGet h5 c0 hc0 pk0 hpk0
  have hupdT : updFilter pk0 (some n0, some c0) = true := by
    unfold updFilter
    simp [hs1, hs2, hcc]
  have hunchF : unchFilter pk0 (some n0, some c0) = false := by
    unfold unchFilter
    simp [hcc, notTV]
  refine ⟨by rw [update_and_load_ok h]; rfl, ?_, ?_⟩
  · rw [final_count_key_of_match hsubn hsubc h5 h6 h7 hn0 hc0 hm, hupdT, hunchF]
    rfl
  · intro r hr hkey x hx
    rcases final_row_cases h5 hr with ⟨n, hn, hnm, hre⟩
      | ⟨n, c, hn, hc, hm2, hupd, hre⟩ | ⟨n, c, hn, hc, hm2, hunch, hre⟩
    · have hkn : keyOf (pk0 :: pkr) n = keyOf (pk0 :: pkr) n0 := by
        rw [hre, keyOf_select_rowGet hsubn] at hkey
        exact hkey
      have hne : n = n0 := keysDistinct_inj h6 n hn n0 hn0 hkn
      subst hne
      exact absurd (List.any_eq_true.mpr ⟨c0, hc0, hm⟩) (by simp [hnm])
    · have hkn : keyOf (pk0 :: pkr) n = keyOf (pk0 :: pkr) n0 := by
        rw [hre, keyOf_align_select_rowGet hsubn (fun k hk => mem_updCols_of_pk hk)] at hkey
        exact hkey
      have hne : n = n0 := keysDistinct_inj h6 n hn n0 hn0 hkn
      subst hne
      rw [hre, rowGet_align_select _ hx (mem_updCols hx)]
    · have hkc : keyOf (pk0 :: pkr) c = keyOf (pk0 :: pkr) n0 := by
        rw [hre, keyOf_align_select_rowGet hsubn hsubc] at hkey
        exact hkey
      have hkn : keyOf (pk0 :: pkr) n = keyOf (pk0 :: pkr) n0 :=
        (keysMatch_keyOf hm2).trans hkc
      have hne : n = n0 := keysDistinct_inj h6 n hn n0 hn0 hkn
      subst hne
      have hkcc0 : keyOf (pk0 :: pkr) c = keyOf (pk0 :: pkr) c0 :=
        hkc.trans (keysMatch_keyOf hm)
      have hce : c = c0 := keysDistinct_inj h7 c hc c0 hc0 hkcc0
      subst hce
      rw [hunch] at hunchF
      cases hunchF

/-- Witness for claim C4 at the concrete data: key 2 differs in
`value_col` and the reconciled dataset carries New's row. -/
theorem C4_updated_key_witness :
    specAssumptions wNew wCurrent ["id"] = true
    ∧ rowBn ∈ wNew.rows
    ∧ rowB ∈ wCurrent.rows
    ∧ keysMatch ["id"] rowBn rowB = true
    ∧ (neqTV (rowGet rowBn "value_col") (rowGet rowB "value_col") = TV.tt
        ∨ neqTV (rowGet rowBn "another_col") (rowGet rowB "another_col") = TV.tt)
    ∧ ((update_and_load_to_aurora wCurrent wNew ["id"] "url" "tbl" []).map Prod.fst
        = Except.ok (final_df wNew wCurrent ["id"] "id")
      ∧ ((final_df wNew wCurrent ["id"] "id").countP fun r =>
          decide (keyOf ["id"] r = keyOf ["id"] rowBn)) = 1
      ∧ ∀ r ∈ final_df wNew wCurrent ["id"] "id",
          keyOf ["id"] r = keyOf ["id"] rowBn →
          ∀ x ∈ wNew.cols, rowGet r x = rowGet rowBn x) :=
  ⟨by decide, by decide, by decide, by decide, by decide,
    C4_updated_key wCurrent wNew "id" [] "url" "tbl" [] rowBn rowB
      (by decide) (by decide) (by decide) (by decide) (by decide)⟩

/-- Claim C5: for every key present in both inputs with all compared
non-key columns equal and non-NULL (under the standing preconditions),
the reconciled dataset has exactly one row for that key and it carries
Current's values for every column. -/
theorem C5_unchanged_key (current_data new_data : DF) (pk0 : String)
    (pkr : List String) (u t : String) (props : List (String × String)) (n0 c0 : Row)
    (h : specAssumptions new_data current_data (pk0 :: pkr) = true)
    (hn0 : n0 ∈ new_data.rows) (hc0 : c0 ∈ current_data.rows)
    (hm : keysMatch (pk0 :: pkr) n0 c0 = true)
    (heq : (comparedCols.all fun cc =>
        (rowGet n0 cc).isSome && decide (rowGet n0 cc = rowGet c0 cc)) = true) :
    (update_and_load_to_aurora current_data new_data (pk0 :: pkr) u t props).map Prod.fst
      = Except.ok (final_df new_data current_data (pk0 :: pkr) pk0)
    ∧ ((final_df new_data current_data (pk0 :: pkr) pk0).countP fun r =>
        decide (keyOf (pk0 :: pkr) r = keyOf (pk0 :: pkr) c0)) = 1
    ∧ ∀ r ∈ final_df new_data current_data (pk0 :: pkr) pk0,
        keyOf (pk0 :: pkr) r = keyOf (pk0 :: pkr) c0 →
        ∀ x ∈ current_data.cols, rowGet r x = rowGet c0 x := by
  obtain ⟨h1, h2, h3, h4, h5, h6, h7⟩ := specAssumptions_parts h
  have hsubn := all_contains_sub_left h1
  have hsubc := all_contains_sub_right h1
  have hpk0 : pk0 ∈ (pk0 :: pkr) := List.mem_cons_self pk0 pkr
  have hvc := List.all_eq_true.mp heq "value_col" (by simp [comparedCols])
  have hac := List.all_eq_true.mp heq "another_col" (by simp [comparedCols])
  rw [Bool.and_eq_true, decide_eq_true_eq] at hvc hac
  have hcc : changedCond (some n0, some c0) = TV.ff :=
    changedCond_eq_ff_of_eq hvc.2.symm hac.2.symm hvc.1 hac.1
  have hs1 := keysDefinedB_rowGet h4 n0 hn0 pk0 hpk0
  have hs2 := keysDefinedB_rowGet h5 c0 hc0 pk0 hpk0
  have hupdF : updFilter pk0 (some n0, some c0) = false := by
    unfold updFilter
    simp [hcc]
  have hunchT : unchFilter pk0 (some n0, some c0) = true := by
    unfold unchFilter
    simp [hs1, hs2, hcc, notTV]
  have hkeyn0c0 : keyOf (pk0 :: pkr) n0 = keyOf (pk0 :: pkr) c0 := keysMatch_keyOf hm
  refine ⟨by rw [update_and_load_ok h]; rfl, ?_, ?_⟩
  · rw [← hkeyn0c0,
      final_count_key_of_match hsubn hsubc h5 h6 h7 hn0 hc0 hm, hupdF, hunchT]
    rfl
  · intro r hr hkey x hx
    rcases final_row_cases h5 hr with ⟨n, hn, hnm, hre⟩
      | ⟨n, c, hn, hc, hm2, hupd, hre⟩ | ⟨n, c, hn, hc, hm2, hunch, hre⟩
    · have hkn : keyOf (pk0 :: pkr) n = keyOf (pk0 :: pkr) n0 := by
        rw [hre, keyOf_select_rowGet hsubn] at hkey
        rw [hkeyn0c0]
        exact hkey
      have hne : n = n0 := keysDistinct_inj h6 n hn n0 hn0 hkn
      subst hne
      exact absurd (List.any_eq_true.mpr ⟨c0, hc0, hm⟩) (by simp [hnm])
    · have hkn : keyOf (pk0 :: pkr) n = keyOf (pk0 :: pkr) n0 := by
        rw [hre, keyOf_align_select_rowGet hsubn (fun k hk => mem_updCols_of_pk hk)] at hkey
        rw [hkeyn0c0]
        exact hkey
      have hne : n = n0 := keysDistinct_inj h6 n hn n0 hn0 hkn
      subst hne
      have hkcc0 : keyOf (pk0 :: pkr) c = keyOf (pk0 :: pkr) c0 :=
        (keysMatch_keyOf hm2).symm.trans hkeyn0c0
      have hce : c = c0 := keysDistinct_inj h7 c hc c0 hc0 hkcc0
      subst hce
      rw [hupd] at hupdF
      cases hupdF
    · have hkc : keyOf (pk0 :: pkr) c = keyOf (pk0 :: pkr) c0 := by
        rw [hre, keyOf_align_select_rowGet hsubn hsubc] at hkey
        exact hkey
      have hce : c = c0 := keysDistinct_inj h7 c hc c0 hc0 hkc
      subst hce
      rw [hre, rowGet_align_select _ ((sameColSet_mem h3).2 x hx) hx]

/-- Witness for claim C5 at the concrete data: key 4 is unchanged and the
reconciled dataset carries Current's row. -/
theorem C5_unchanged_key_witness :
    specAssumptions wNew wCurrent ["id"] = true
    ∧ rowD ∈ wNew.rows
    ∧ rowD ∈ wCurrent.rows
    ∧ keysMatch ["id"] rowD rowD = true
    ∧ (comparedCols.all fun cc =>
        (rowGet rowD cc).isSome && decide (rowGet rowD cc = rowGet rowD cc)) = true
    ∧ ((update_and_load_to_aurora wCurrent wNew ["id"] "url" "tbl" []).map Prod.fst
        = Except.ok (final_df wNew wCurrent ["id"] "id")
      ∧ ((final_df wNew wCurrent ["id"] "id").countP fun r =>
          decide (keyOf ["id"] r = keyOf ["id"] rowD)) = 1
      ∧ ∀ r ∈ final_df wNew wCurrent ["id"] "id",
          keyOf ["id"] r = keyOf ["id"] rowD →
          ∀ x ∈ wCurrent.cols, rowGet r x = rowGet rowD x) :=
  ⟨by decide, by decide, by decide, by decide, by decide,
    C5_unchanged_key wCurrent wNew "id" [] "url" "tbl" [] rowD rowD
      (by decide) (by decide) (by decide) (by decide) (by decide)⟩

/-- Claim C8 counterexample: key 1 is present in both inputs with
`value_col` NULL on both sides and `another_col` equal; the row is indeed
not classified Updated, but it is not classified Unchanged either — it
lands in no bucket and the reconciled dataset is empty, not a row with
Current's values. -/
theorem C8_cex :
    updated_rows exNewNull exCurrentNull ["id"] "id" = []
    ∧ unchanged_rows exNewNull exCurrentNull ["id"] "id" = []
    ∧ (update_and_load_to_aurora exCurrentNull exNewNull ["id"] "url" "tbl" []).map Prod.fst
        = Except.ok [] :=
  ⟨rfl, rfl, rfl⟩

/-- Claim C8 (amended): for every key present in both inputs where a
compared column is NULL on both sides and no compared column differs with
non-NULL values on both sides, the NULL-vs-NULL pair is not treated as a
change (the joined row fails the Updated filter), but the row also fails
the Unchanged filter, so the key has no row at all in the reconciled
dataset — it is dropped rather than kept with Current's values. -/
theorem C8_null_vs_null (current_data new_data : DF) (pk0 : String)
    (pkr : List String) (u t : String) (props : List (String × String)) (n0 c0 : Row)
    (h : specAssumptions new_data current_data (pk0 :: pkr) = true)
    (hn0 : n0 ∈ new_data.rows) (hc0 : c0 ∈ current_data.rows)
    (hm : keysMatch (pk0 :: pkr) n0 c0 = true)
    (hnull : (comparedCols.any fun cc =>
        (rowGet n0 cc).isNone && (rowGet c0 cc).isNone) = true)
    (hnochange : (comparedCols.all fun cc =>
        !(decide (neqTV (rowGet n0 cc) (rowGet c0 cc) = TV.tt))) = true) :
    updFilter pk0 (some n0, some c0) = false
    ∧ unchFilter pk0 (some n0, some c0) = false
    ∧ (update_and_load_to_aurora current_data new_data (pk0 :: pkr) u t props).map Prod.fst
        = Except.ok (final_df new_data current_data (pk0 :: pkr) pk0)
    ∧ ((final_df new_data current_data (pk0 :: pkr) pk0).countP fun r =>
        decide (keyOf (pk0 :: pkr) r = keyOf (pk0 :: pkr) n0)) = 0 := by
  obtain ⟨h1, h2, h3, h4, h5, h6, h7⟩ := specAssumptions_parts h
  have hsubn := all_contains_sub_left h1
  have hsubc := all_contains_sub_right h1
  have hx := List.all_eq_true.mp hnochange "value_col" (by simp [comparedCols])
  have hy := List.all_eq_true.mp hnochange "another_col" (by simp [comparedCols])
  simp only [Bool.not_eq_true', decide_eq_false_iff_not] at hx hy
  have hz : neqTV (rowGet n0 "value_col") (rowGet c0 "value_col") = TV.nn
      ∨ neqTV (rowGet n0 "another_col") (rowGet c0 "another_col") = TV.nn := by
    obtain ⟨cc, hcc, hboth⟩ := List.any_eq_true.mp hnull
    rw [Bool.and_eq_true] at hboth
    have hn0n := Option.isNone_iff_eq_none.mp hboth.1
    have hc0n := Option.isNone_iff_eq_none.mp hboth.2
    simp only [comparedCols, List.mem_cons, List.mem_singleton] at hcc
    rcases hcc with hcc | hcc | hcc
    · subst hcc
      left
      rw [hn0n, hc0n]
      rfl
    · subst hcc
      right
      rw [hn0n, hc0n]
      rfl
    · cases hcc
  have hnn : changedCond (some n0, some c0) = TV.nn := changedCond_eq_nn hx hy hz
  have hupdF : updFilter pk0 (some n0, some c0) = false := by
    unfold updFilter
    simp [hnn]
  have hunchF : unchFilter pk0 (some n0, some c0) = false := by
    unfold unchFilter
    simp [hnn, notTV]
  refine ⟨hupdF, hunchF, by rw [update_and_load_ok h]; rfl, ?_⟩
  rw [final_count_key_of_match hsubn hsubc h5 h6 h7 hn0 hc0 hm, hupdF, hunchF]
  rfl

/-- Witness for the amended claim C8 at a key whose `value_col` is NULL
on both sides with `another_col` equal: the key vanishes from the
reconciled dataset. -/
theorem C8_null_vs_null_witness :
    specAssumptions exNewNull exCurrentNull ["id"] = true
    ∧ [("id", some (Cell.int 1)), ("value_col", (none : Val)),
        ("another_col", some (Cell.str "x"))] ∈ exNewNull.rows
    ∧ [("id", some (Cell.int 1)), ("value_col", (none : Val)),
        ("another_col", some (Cell.str "x"))] ∈ exCurrentNull.rows
    ∧ keysMatch ["id"]
        [("id", some (Cell.int 1)), ("value_col", (none : Val)),
          ("another_col", some (Cell.str "x"))]
        [("id", some (Cell.int 1)), ("value_col", (none : Val)),
          ("another_col", some (Cell.str "x"))] = true
    ∧ (comparedCols.any fun cc =>
        (rowGet [("id", some (Cell.int 1)), ("value_col", (none : Val)),
          ("another_col", some (Cell.str "x"))] cc).isNone
        && (rowGet [("id", some (Cell.int 1)), ("value_col", (none : Val)),
          ("another_col", some (Cell.str "x"))] cc).isNone) = true
    ∧ (comparedCols.all fun cc =>
        !(decide (neqTV
          (rowGet [("id", some (Cell.int 1)), ("value_col", (none : Val)),
            ("another_col", some (Cell.str "x"))] cc)
          (rowGet [("id", some (Cell.int 1)), ("value_col", (none : Val)),
            ("another_col", some (Cell.str "x"))] cc) = TV.tt))) = true
    ∧ (updFilter "id"
          (some [("id", some (Cell.int 1)), ("value_col", (none : Val)),
            ("another_col", some (Cell.str "x"))],
           some [("id", some (Cell.int 1)), ("value_col", (none : Val)),
            ("another_col", some (Cell.str "x"))]) = false
      ∧ unchFilter "id"
          (some [("id", some (Cell.int 1)), ("value_col", (none : Val)),
            ("another_col", some (Cell.str "x"))],
           some [("id", some (Cell.int 1)), ("value_col", (none : Val)),
            ("another_col", some (Cell.str "x"))]) = false
      ∧ (update_and_load_to_aurora exCurrentNull exNewNull ["id"] "url" "tbl" []).map Prod.fst
          = Except.ok (final_df exNewNull exCurrentNull ["id"] "id")
      ∧ ((final_df exNewNull exCurrentNull ["id"] "id").countP fun r =>
          decide (keyOf ["id"] r = keyOf ["id"]
            [("id", some (Cell.int 1)), ("value_col", (none : Val)),
              ("another_col", some (Cell.str "x"))])) = 0) :=
  ⟨by decide, by decide, by decide, by decide, by decide, by decide,
    C8_null_vs_null exCurrentNull exNewNull "id" [] "url" "tbl" []
      [("id", some (Cell.int 1)), ("value_col", (none : Val)),
        ("another_col", some (Cell.str "x"))]
      [("id", some (Cell.int 1)), ("value_col", (none : Val)),
        ("another_col", some (Cell.str "x"))]
      (by decide) (by decide) (by decide) (by decide) (by decide) (by decide)⟩

/-- Claim C10 counterexample: key 1 has `value_col` NULL on the new side,
but `another_col` differs with non-NULL values on both sides; under
three-valued logic `NULL OR TRUE` is `TRUE`, so the joined row satisfies
the Updated filter and the key does get a row (New's values) in the
reconciled dataset, contrary to the claim that it has none. -/
theorem C10_cex :
    (updated_rows exNewX exCurrentX ["id"] "id").length = 1
    ∧ (update_and_load_to_aurora exCurrentX exNewX ["id"] "url" "tbl" []).map Prod.fst
        = Except.ok [[("id", some (Cell.int 1)), ("value_col", none),
            ("another_col", some (Cell.str "y"))]] :=
  ⟨rfl, rfl⟩

/-- Claim C10 (amended): for every key present in both inputs where some
compared column is NULL on at least one side and no compared column
differs with non-NULL values on both sides, the joined row satisfies
neither the Updated nor the Unchanged filter, so the key has no row in
the reconciled dataset.  (When some compared column does differ with
non-NULL values, the row is classified Updated despite the NULL.) -/
theorem C10_null_dropped (current_data new_data : DF) (pk0 : String)
    (pkr : List String) (u t : String) (props : List (String × String)) (n0 c0 : Row)
    (h : specAssumptions new_data current_data (pk0 :: pkr) = true)
    (hn0 : n0 ∈ new_data.rows) (hc0 : c0 ∈ current_data.rows)
    (hm : keysMatch (pk0 :: pkr) n0 c0 = true)
    (hnull : (comparedCols.any fun cc =>
        (rowGet n0 cc).isNone || (rowGet c0 cc).isNone) = true)
    (hnochange : (comparedCols.all fun cc =>
        !(decide (neqTV (rowGet n0 cc) (rowGet c0 cc) = TV.tt))) = true) :
    updFilter pk0 (some n0, some c0) = false
    ∧ unchFilter pk0 (some n0, some c0) = false
    ∧ (update_and_load_to_aurora current_data new_data (pk0 :: pkr) u t props).map Prod.fst
        = Except.ok (final_df new_data current_data (pk0 :: pkr) pk0)
    ∧ ((final_df new_data current_data (pk0 :: pkr) pk0).countP fun r =>
        decide (keyOf (pk0 :: pkr) r = keyOf (pk0 :: pkr) n0)) = 0 := by
  obtain ⟨h1, h2, h3, h4, h5, h6, h7⟩ := specAssumptions_parts h
  have hsubn := all_contains_sub_left h1
  have hsubc := all_contains_sub_right h1
  have hx := List.all_eq_true.mp hnochange "value_col" (by simp [comparedCols])
  have hy := List.all_eq_true.mp hnochange "another_col" (by simp [comparedCols])
  simp only [Bool.not_eq_true', decide_eq_false_iff_not] at hx hy
  have hz : neqTV (rowGet n0 "value_col") (rowGet c0 "value_col") = TV.nn
      ∨ neqTV (rowGet n0 "another_col") (rowGet c0 "another_col") = TV.nn := by
    obtain ⟨cc, hcc, hone⟩ := List.any_eq_true.mp hnull
    rw [Bool.or_eq_true] at hone
    have hnnv : neqTV (rowGet n0 cc) (rowGet c0 cc) = TV.nn := by
      rcases hone with hone | hone
      · rw [Option.isNone_iff_eq_none.mp hone]
        exact neqTV_none_left
      · rw [Option.isNone_iff_eq_none.mp hone]
        exact neqTV_none_right
    simp only [comparedCols, List.mem_cons, List.mem_singleton] at hcc
    rcases hcc with hcc | hcc | hcc
    · subst hcc
      exact Or.inl hnnv
    · subst hcc
      exact Or.inr hnnv
    · cases hcc
  have hnn : changedCond (some n0, some c0) = TV.nn := changedCond_eq_nn hx hy hz
  have hupdF : updFilter pk0 (some n0, some c0) = false := by
    unfold updFilter
    simp [hnn]
  have hunchF : unchFilter pk0 (some n0, some c0) = false := by
    unfold unchFilter
    simp [hnn, notTV]
  refine ⟨hupdF, hunchF, by rw [update_and_load_ok h]; rfl, ?_⟩
  rw [final_count_key_of_match hsubn hsubc h5 h6 h7 hn0 hc0 hm, hupdF, hunchF]
  rfl

/-- Witness for the amended claim C10 at a key whose `value_col` is NULL
on the new side only, with `another_col` equal: the key vanishes from the
reconciled dataset. -/
theorem C10_null_dropped_witness :
    specAssumptions exNewY exCurrentY ["id"] = true
    ∧ [("id", some (Cell.int 1)), ("value_col", (none : Val)),
        ("another_col", some (Cell.str "x"))] ∈ exNewY.rows
    ∧ [("id", some (Cell.int 1)), ("value_col", some (Cell.str "v")),
        ("another_col", some (Cell.str "x"))] ∈ exCurrentY.rows
    ∧ keysMatch ["id"]
        [("id", some (Cell.int 1)), ("value_col", (none : Val)),
          ("another_col", some (Cell.str "x"))]
        [("id", some (Cell.int 1)), ("value_col", some (Cell.str "v")),
          ("another_col", some (Cell.str "x"))] = true
    ∧ (comparedCols.any fun cc =>
        (rowGet [("id", some (Cell.int 1)), ("value_col", (none : Val)),
          ("another_col", some (Cell.str "x"))] cc).isNone
        || (rowGet [("id", some (Cell.int 1)), ("value_col", some (Cell.str "v")),
          ("another_col", some (Cell.str "x"))] cc).isNone) = true
    ∧ (comparedCols.all fun cc =>
        !(decide (neqTV
          (rowGet [("id", some (Cell.int 1)), ("value_col", (none : Val)),
            ("another_col", some (Cell.str "x"))] cc)
          (rowGet [("id", some (Cell.int 1)), ("value_col", some (Cell.str "v")),
            ("another_col", some (Cell.str "x"))] cc) = TV.tt))) = true
    ∧ (updFilter "id"
          (some [("id", some (Cell.int 1)), ("value_col", (none : Val)),
            ("another_col", some (Cell.str "x"))],
           some [("id", some (Cell.int 1)), ("value_col", some (Cell.str "v")),
            ("another_col", some (Cell.str "x"))]) = false
      ∧ unchFilter "id"
          (some [("id", some (Cell.int 1)), ("value_col", (none : Val)),
            ("another_col", some (Cell.str "x"))],
           some [("id", some (Cell.int 1)), ("value_col", some (Cell.str "v")),
            ("another_col", some (Cell.str "x"))]) = false
      ∧ (update_and_load_to_aurora exCurrentY exNewY ["id"] "url" "tbl" []).map Prod.fst
          = Except.ok (final_df exNewY exCurrentY ["id"] "id")
      ∧ ((final_df exNewY exCurrentY ["id"] "id").countP fun r =>
          decide (keyOf ["id"] r = keyOf ["id"]
            [("id", some (Cell.int 1)), ("value_col", (none : Val)),
              ("another_col", some (Cell.str "x"))])) = 0) :=
  ⟨by decide, by decide, by decide, by decide, by decide, by decide,
    C10_null_dropped exCurrentY exNewY "id" [] "url" "tbl" []
      [("id", some (Cell.int 1)), ("value_col", (none : Val)),
        ("another_col", some (Cell.str "x"))]
      [("id", some (Cell.int 1)), ("value_col", some (Cell.str "v")),
        ("another_col", some (Cell.str "x"))]
      (by decide) (by decide) (by decide) (by decide) (by decide) (by decide)⟩

/-- Claim C7 counterexample: with `value_col` NULL in New (and Current),
run 1 drops the key-1 row entirely, so the destination becomes empty;
running again with the same New against that destination classifies the
row as Inserted, not Unchanged. -/
theorem C7_cex :
    (update_and_load_to_aurora exCurrentNull exNewNull ["id"] "url" "tbl" []).map Prod.fst
      = Except.ok []
    ∧ (new_rows exNewNull ⟨exNewNull.cols, []⟩ ["id"] "id").length = 1 :=
  ⟨rfl, rfl⟩

/-- Claim C7 (amended): under the standing preconditions and with both
compared columns non-NULL in both inputs, running the operation a second
time with the same New against the destination produced by the first run
(the reconciled dataset, taken as the next Current) classifies every
joined row as Unchanged: the Inserted and Updated buckets of the second
run are empty and every joined row satisfies the Unchanged filter. -/
theorem C7_idempotent (current_data new_data : DF) (pk0 : String)
    (pkr : List String) (u t : String) (props : List (String × String))
    (h : specAssumptions new_data current_data (pk0 :: pkr) = true)
    (hVn : comparedDefinedB new_data.rows = true)
    (hVc : comparedDefinedB current_data.rows = true) :
    (update_and_load_to_aurora current_data new_data (pk0 :: pkr) u t props).map Prod.fst
      = Except.ok (final_df new_data current_data (pk0 :: pkr) pk0)
    ∧ new_rows new_data ⟨new_data.cols, final_df new_data current_data (pk0 :: pkr) pk0⟩ (pk0 :: pkr) pk0 = []
    ∧ updated_rows new_data ⟨new_data.cols, final_df new_data current_data (pk0 :: pkr) pk0⟩ (pk0 :: pkr) pk0 = []
    ∧ (joined_df new_data ⟨new_data.cols, final_df new_data current_data (pk0 :: pkr) pk0⟩ (pk0 :: pkr)).all (unchFilter pk0)
        = true := by
  obtain ⟨h1, h2, h3, h4, h5, h6, h7⟩ := specAssumptions_parts h
  have hsubn := all_contains_sub_left h1
  have hsubc := all_contains_sub_right h1
  have hcompn := all_contains_sub_left h2
  have hcompc := all_contains_sub_right h2
  have hpk0 : pk0 ∈ (pk0 :: pkr) := List.mem_cons_self pk0 pkr
  have hrows : (⟨new_data.cols, final_df new_data current_data (pk0 :: pkr) pk0⟩ : DF).rows = final_df new_data current_data (pk0 :: pkr) pk0 := rfl
  have hA : ∀ r ∈ final_df new_data current_data (pk0 :: pkr) pk0,
      ∃ n, n ∈ new_data.rows
        ∧ (∀ k ∈ (pk0 :: pkr), rowGet r k = rowGet n k)
        ∧ ∀ cc ∈ comparedCols, rowGet r cc = rowGet n cc := by
    intro r hr
    rcases final_row_cases h5 hr with ⟨n, hn, hnm, hre⟩
      | ⟨n, c, hn, hc, hm, hupd, hre⟩ | ⟨n, c, hn, hc, hm, hunch, hre⟩
    · exact ⟨n, hn,
        fun k hk => by rw [hre, rowGet_selectVals_mem _ (hsubn k hk)],
        fun cc hcc => by rw [hre, rowGet_selectVals_mem _ (hcompn cc hcc)]⟩
    · refine ⟨n, hn, fun k hk => ?_, fun cc hcc => ?_⟩
      · rw [hre, rowGet_align_select _ (hsubn k hk) (mem_updCols_of_pk hk)]
      · rw [hre, rowGet_align_select _ (hcompn cc hcc) (mem_updCols (hcompn cc hcc))]
    · have hff : changedCond (some n, some c) = TV.ff := by
        have hdec : decide (notTV (changedCond (some n, some c)) = TV.tt) = true := by
          have h3b := hunch
          unfold unchFilter at h3b
          simp only [Bool.and_eq_true] at h3b
          exact h3b.2
        rw [decide_eq_true_eq] at hdec
        cases hcx : changedCond (some n, some c) with
        | tt => rw [hcx] at hdec; cases hdec
        | ff => rfl
        | nn => rw [hcx] at hdec; cases hdec
      obtain ⟨hv, hvs, hac, has⟩ := changedCond_ff hff
      refine ⟨n, hn, fun k hk => ?_, fun cc hcc => ?_⟩
      · rw [hre, rowGet_align_select _ (hsubn k hk) (hsubc k hk)]
        exact ((keysMatch_rowGet hm k hk).1).symm
      · rw [hre, rowGet_align_select _ (hcompn cc hcc) (hcompc cc hcc)]
        simp only [comparedCols, List.mem_cons, List.mem_singleton] at hcc
        rcases hcc with hcc | hcc | hcc
        · subst hcc
          exact hv.symm
        · subst hcc
          exact hac.symm
        · cases hcc
  have hB : ∀ n ∈ new_data.rows,
      ((final_df new_data current_data (pk0 :: pkr) pk0).countP fun r =>
        decide (keyOf (pk0 :: pkr) r = keyOf (pk0 :: pkr) n)) = 1 := by
    intro n hn
    cases hany : current_data.rows.any fun c => keysMatch (pk0 :: pkr) n c with
    | false => exact final_count_key_unmatched hsubn hsubc h5 h6 hn hany
    | true =>
      obtain ⟨c0, hc0, hmm⟩ := List.any_eq_true.mp hany
      rw [final_count_key_of_match hsubn hsubc h5 h6 h7 hn hc0 hmm]
      have hs1 := keysDefinedB_rowGet h4 n hn pk0 hpk0
      have hs2 := keysDefinedB_rowGet h5 c0 hc0 pk0 hpk0
      rcases changedCond_closed_of_pair hVn hVc hn hc0 with hcc | hcc
      · unfold updFilter unchFilter
        simp [hs1, hs2, hcc, notTV]
      · unfold updFilter unchFilter
        simp [hs1, hs2, hcc, notTV]
  have hdefOut : keysDefinedB (pk0 :: pkr) (final_df new_data current_data (pk0 :: pkr) pk0) = true := by
    unfold keysDefinedB
    rw [List.all_eq_true]
    intro r hr
    rw [List.all_eq_true]
    intro k hk
    obtain ⟨n, hn, hkeys, _⟩ := hA r hr
    rw [hkeys k hk]
    exact keysDefinedB_rowGet h4 n hn k hk
  have hR1 : ∀ r ∈ final_df new_data current_data (pk0 :: pkr) pk0,
      (new_data.rows.any fun n => keysMatch (pk0 :: pkr) n r) = true := by
    intro r hr
    obtain ⟨n, hn, hkeys, _⟩ := hA r hr
    exact List.any_eq_true.mpr ⟨n, hn,
      keysMatch_of_pointwise (fun k hk => keysDefinedB_rowGet h4 n hn k hk) hkeys⟩
  have hR2 : ∀ n ∈ new_data.rows,
      ((final_df new_data current_data (pk0 :: pkr) pk0).any fun r => keysMatch (pk0 :: pkr) n r) = true := by
    intro n hn
    have hcount := hB n hn
    cases hanyr : (final_df new_data current_data (pk0 :: pkr) pk0).any fun r => keysMatch (pk0 :: pkr) n r with
    | true => rfl
    | false =>
      exfalso
      have hz : ((final_df new_data current_data (pk0 :: pkr) pk0).countP fun r =>
          decide (keyOf (pk0 :: pkr) r = keyOf (pk0 :: pkr) n)) = 0 := by
        rw [List.countP_eq_zero]
        intro r hr
        simp only [decide_eq_true_eq]
        intro hkeq
        have hmm := keysMatch_of_pointwise
          (fun k hk => keysDefinedB_rowGet h4 n hn k hk) (map_eq_pointwise hkeq)
        exact List.any_eq_false.mp hanyr r hr hmm
      rw [hz] at hcount
      cases hcount
  have hR3 : ∀ n ∈ new_data.rows, ∀ r ∈ final_df new_data current_data (pk0 :: pkr) pk0,
      keysMatch (pk0 :: pkr) n r = true →
      changedCond (some n, some r) = TV.ff := by
    intro n hn r hr hmm
    obtain ⟨n2, hn2, hkeys2, hcomp2⟩ := hA r hr
    have hk1 : keyOf (pk0 :: pkr) n = keyOf (pk0 :: pkr) r := keysMatch_keyOf hmm
    have hk2 : keyOf (pk0 :: pkr) r = keyOf (pk0 :: pkr) n2 := List.map_congr_left hkeys2
    have hkeq : keyOf (pk0 :: pkr) n2 = keyOf (pk0 :: pkr) n := (hk1.trans hk2).symm
    have hnn2 : n2 = n := keysDistinct_inj h6 n2 hn2 n hn hkeq
    subst hnn2
    refine changedCond_eq_ff_of_eq ?_ ?_ ?_ ?_
    · exact hcomp2 "value_col" (by simp [comparedCols])
    · exact hcomp2 "another_col" (by simp [comparedCols])
    · exact comparedDefinedB_rowGet hVn n2 hn2 "value_col" (by simp [comparedCols])
    · exact comparedDefinedB_rowGet hVn n2 hn2 "another_col" (by simp [comparedCols])
  refine ⟨by rw [update_and_load_ok h]; rfl, ?_, ?_, ?_⟩
  · refine List.length_eq_zero.mp ?_
    unfold new_rows
    rw [List.length_map, ← List.countP_eq_length_filter]
    unfold joined_df
    rw [hrows, countP_fullOuterJoin]
    have hT1 : (new_data.rows.countP fun n => newFilter pk0 (some n, none)
        && !((final_df new_data current_data (pk0 :: pkr) pk0).any fun c => keysMatch (pk0 :: pkr) n c)) = 0 := by
      rw [List.countP_eq_zero]
      intro n hn
      simp [hR2 n hn]
    have hT2 : ((matchedPairs new_data.rows (final_df new_data current_data (pk0 :: pkr) pk0) (pk0 :: pkr)).countP
        fun nc => newFilter pk0 (some nc.1, some nc.2)) = 0 := by
      rw [List.countP_eq_zero]
      intro nc hnc
      obtain ⟨_, h2m, _⟩ := mem_matchedPairs.mp hnc
      have hs := keysDefinedB_rowGet hdefOut nc.2 h2m pk0 hpk0
      simp [newFilter, isNone_eq_false hs]
    have hT3 : ((final_df new_data current_data (pk0 :: pkr) pk0).countP fun c => newFilter pk0 (none, some c)
        && !(new_data.rows.any fun n => keysMatch (pk0 :: pkr) n c)) = 0 := by
      rw [List.countP_eq_zero]
      intro c hc
      have hs := keysDefinedB_rowGet hdefOut c hc pk0 hpk0
      simp [newFilter, isNone_eq_false hs]
    rw [hT1, hT2, hT3]
  · refine List.length_eq_zero.mp ?_
    unfold updated_rows
    rw [List.length_map, ← List.countP_eq_length_filter]
    unfold joined_df
    rw [hrows, countP_fullOuterJoin]
    have hT1 : (new_data.rows.countP fun n => updFilter pk0 (some n, none)
        && !((final_df new_data current_data (pk0 :: pkr) pk0).any fun c => keysMatch (pk0 :: pkr) n c)) = 0 := by
      rw [List.countP_eq_zero]
      intro n _
      simp [updFilter]
    have hT2 : ((matchedPairs new_data.rows (final_df new_data current_data (pk0 :: pkr) pk0) (pk0 :: pkr)).countP
        fun nc => updFilter pk0 (some nc.1, some nc.2)) = 0 := by
      rw [List.countP_eq_zero]
      intro nc hnc
      obtain ⟨h1m, h2m, h3m⟩ := mem_matchedPairs.mp hnc
      have hcc := hR3 nc.1 h1m nc.2 h2m h3m
      unfold updFilter
      simp [hcc]
    have hT3 : ((final_df new_data current_data (pk0 :: pkr) pk0).countP fun c => updFilter pk0 (none, some c)
        && !(new_data.rows.any fun n => keysMatch (pk0 :: pkr) n c)) = 0 := by
      rw [List.countP_eq_zero]
      intro c _
      simp [updFilter]
    rw [hT1, hT2, hT3]
  · rw [List.all_eq_true]
    intro p hp
    have hp2 : p ∈ fullOuterJoin new_data.rows (final_df new_data current_data (pk0 :: pkr) pk0) (pk0 :: pkr) := hp
    rcases mem_fullOuterJoin hp2 with ⟨n, hn, hnm, he⟩
      | ⟨n, r, hn, hr, hmm, he⟩ | ⟨r, hr, hnm, he⟩
    · rw [hR2 n hn] at hnm
      cases hnm
    · subst he
      have hcc := hR3 n hn r hr hmm
      have hs1 := keysDefinedB_rowGet h4 n hn pk0 hpk0
      have hs2 := keysDefinedB_rowGet hdefOut r hr pk0 hpk0
      unfold unchFilter
      simp [hs1, hs2, hcc, notTV]
    · rw [hR1 r hr] at hnm
      cases hnm

/-- Witness for the amended claim C7 at the concrete data: the second run
against the first run's output classifies everything Unchanged. -/
theorem C7_idempotent_witness :
    specAssumptions wNew wCurrent ["id"] = true
    ∧ comparedDefinedB wNew.rows = true
    ∧ comparedDefinedB wCurrent.rows = true
    ∧ ((update_and_load_to_aurora wCurrent wNew ["id"] "url" "tbl" []).map Prod.fst
        = Except.ok (final_df wNew wCurrent ["id"] "id")
      ∧ new_rows wNew ⟨wNew.cols, final_df wNew wCurrent ["id"] "id"⟩ ["id"] "id" = []
      ∧ updated_rows wNew ⟨wNew.cols, final_df wNew wCurrent ["id"] "id"⟩ ["id"] "id" = []
      ∧ (joined_df wNew ⟨wNew.cols, final_df wNew wCurrent ["id"] "id"⟩ ["id"]).all
          (unchFilter "id") = true) :=
  ⟨by decide, by decide, by decide,
    C7_idempotent wCurrent wNew "id" [] "url" "tbl" []
      (by decide) (by decide) (by decide)⟩

end Upsert
